import Mathlib

/-!
# Scoring core of `scoring-apps-go`: a shallow embedding

The development follows three source files:

* `pkg/policies/types.go`: `Weight`, `AttestationOptions`, `DcfPolicy`, their JSON decoders
  and `DcfPolicy.FetchWeight`;
* `internal/calculator/policy/local.go`: `LocalPolicyProvider`;
* `pkg/documents/types.go`: `Annotation`, `Score`, `NewScore`, `calcAttestationScore`.

Modelling conventions.

* Go `int` is `Int`; no operation of the modelled code can overflow on the values a policy
  file holds, and overflow is not modelled.
* `time.Time` is an `Int`: nanoseconds elapsed since the zero `time.Time`, so the zero value
  of the Go type is `0`. `time.Duration` is an `Int` of nanoseconds. Two `time.Time` are
  `==` when they are the same instant: location and monotonic reading are not modelled.
* `NewScore` and `calcAttestationScore` are given twice. The first definitions compute in
  exact rational arithmetic (`ℚ`) with unbounded time differences: they carry the results
  that do not depend on rounding (which branch is taken, what is counted, which order is
  walked). The definitions of the section on the machine formats, `NewScore32` and
  `calcAttestationScore32`, follow the same lines with every `float32` and `float64`
  operation rounded, `Time.Sub` saturating and durations wrapping in 64 bits: they carry
  the results about the values returned. In both a division by zero yields `0` where Go
  yields `NaN` or an infinity.
* The wall clock (`time.Now`, `time.Since`) is a parameter `now`, read once.
* A Go `error` is an `Option String`: `none` is `nil`.
-/

set_option autoImplicit false

namespace policies

/-- Go struct `Weight` of `pkg/policies/types.go`. -/
structure Weight where
  AnnotationKey : String
  Value : Int
  deriving DecidableEq, Repr

/-- Go struct `AttestationOptions` of `pkg/policies/types.go`. -/
structure AttestationOptions where
  CadenceThresholdMins : Int
  TimeRangeMins : Int
  deriving DecidableEq, Repr

/-- Go struct `DcfPolicy` of `pkg/policies/types.go`. -/
structure DcfPolicy where
  Name : String
  Weights : List Weight
  AttestationOptions : AttestationOptions
  deriving DecidableEq, Repr

/-- The loop of `FetchWeight`: starting from `w`, the first item whose key matches replaces
`w` and ends the loop (`break`). -/
def fetchLoop (key : String) (w : Weight) : List Weight → Weight
  | [] => w
  | item :: rest => if item.AnnotationKey = key then item else fetchLoop key w rest

/-- Method `(p *DcfPolicy) FetchWeight(key string) Weight`. -/
def DcfPolicy.FetchWeight (p : DcfPolicy) (key : String) : Weight :=
  let w := fetchLoop key { AnnotationKey := "", Value := 0 } p.Weights
  -- catch in case the provided key was not found in the defined list of Weights
  if w.Value = 0 then { AnnotationKey := key, Value := 1 } else w

/-- The members of a JSON object that `Weight.UnmarshalJSON` reads: `"key"` and `"value"`,
each present or absent. -/
structure WeightRecord where
  key : Option String
  value : Option Int
  deriving DecidableEq, Repr

/-- What `json.Unmarshal(data, &a)` leaves in the local `Alias` value of
`Weight.UnmarshalJSON`: a member that is absent keeps the zero value of its field. -/
def WeightRecord.toAlias (r : WeightRecord) : Weight :=
  { AnnotationKey := r.key.getD "", Value := r.value.getD 0 }

/-- Method `(w *Weight) UnmarshalJSON(data []byte) error`. The argument `data` is the result
of `json.Unmarshal` on the bytes: an error, or the record read. The result is the receiver
after the call and the error returned. -/
def Weight.UnmarshalJSON (w : Weight) (data : Except String WeightRecord) :
    Weight × Option String :=
  match data with
  | .error err => (w, some err)
  | .ok r =>
    let a := r.toAlias
    let a : Weight :=
      if a.Value < 1 then { a with Value := 1 }
      else if a.Value > 10 then { a with Value := 10 }
      else a
    ({ AnnotationKey := a.AnnotationKey, Value := a.Value }, none)

/-- The clamp of the specification, in its words: 1 below 1, 10 above 10, the value
otherwise. -/
def clampSpec (v : Int) : Int :=
  if v < 1 then 1 else if v > 10 then 10 else v

/-- The members of a JSON object that `AttestationOptions.UnmarshalJSON` reads. -/
structure AttestationRecord where
  cadenceThresholdMins : Option Int
  timeRange : Option Int
  deriving DecidableEq, Repr

/-- What `json.Unmarshal(data, &a)` leaves in the local `alias` value of
`AttestationOptions.UnmarshalJSON`. -/
def AttestationRecord.toAlias (r : AttestationRecord) : AttestationOptions :=
  { CadenceThresholdMins := r.cadenceThresholdMins.getD 0, TimeRangeMins := r.timeRange.getD 0 }

/-- Method `(opts *AttestationOptions) UnmarshalJSON(data []byte) error`: the receiver after
the call and the error returned. -/
def AttestationOptions.UnmarshalJSON (opts : AttestationOptions)
    (data : Except String AttestationRecord) : AttestationOptions × Option String :=
  match data with
  | .error err => (opts, some err)
  | .ok r =>
    let a := r.toAlias
    -- Validation
    if a.CadenceThresholdMins ≤ 0 then
      (opts, some "CadenceThresholdMins must be a positive integer")
    else if a.TimeRangeMins < 0 then
      (opts, some "CycleRange must be 0 or a positive integer")
    else
      ({ CadenceThresholdMins := a.CadenceThresholdMins, TimeRangeMins := a.TimeRangeMins }, none)

end policies

namespace policy

open policies

/-- Go struct `LocalPolicyProvider` of `internal/calculator/policy/local.go`. -/
structure LocalPolicyProvider where
  policy : List DcfPolicy
  deriving DecidableEq, Repr

/-- The loop of `GetWeights` over the loaded policies. -/
def getWeightsLoop (classifier : String) : List DcfPolicy → Except String (List Weight)
  | [] => .error ("classifier not defined " ++ classifier)
  | p :: rest => if p.Name = classifier then .ok p.Weights else getWeightsLoop classifier rest

/-- Method `(lp *LocalPolicyProvider) GetWeights(classifier string) ([]policies.Weight, error)`. -/
def LocalPolicyProvider.GetWeights (lp : LocalPolicyProvider) (classifier : String) :
    Except String (List Weight) :=
  getWeightsLoop classifier lp.policy

/-- The loop of `GetAttestationOpts` over the loaded policies. -/
def getAttestationOptsLoop (classifier : String) :
    List DcfPolicy → Except String AttestationOptions
  | [] => .error ("classifier not defined " ++ classifier)
  | p :: rest =>
    if p.Name = classifier then .ok p.AttestationOptions
    else getAttestationOptsLoop classifier rest

/-- Method `(lp *LocalPolicyProvider) GetAttestationOpts(classifier string)
(policies.AttestationOptions, error)`. -/
def LocalPolicyProvider.GetAttestationOpts (lp : LocalPolicyProvider) (classifier : String) :
    Except String AttestationOptions :=
  getAttestationOptsLoop classifier lp.policy

end policy

namespace documents

open policies

/-- Value of the constant `contracts.AnnotationAttestation` of the Alvarium SDK, the kind
that marks an attestation annotation. The SDK is outside this repository; the value is the
one the specification names (`fetchWeight("attestation")`). -/
def AnnotationAttestation : String := "attestation"

/-- Go struct `Annotation` of `pkg/documents/types.go`. `Hash` is a `contracts.HashType`, a
string type. -/
structure Annotation where
  Key : String
  DataRef : String
  Hash : String
  Host : String
  Kind : String
  Signature : String
  IsSatisfied : Bool
  Timestamp : Int
  deriving DecidableEq, Repr

/-- The composite literal `Annotation{}`: every field at its zero value. -/
def zeroAnnotation : Annotation :=
  { Key := "", DataRef := "", Hash := "", Host := "", Kind := "", Signature := "",
    IsSatisfied := false, Timestamp := 0 }

/-- A `ulid.ULID` is 16 bytes; it is kept as the number they spell. -/
abbrev ULID := Nat

/-- Go struct `Score` of `pkg/documents/types.go`. -/
structure Score where
  Key : ULID
  DataRef : String
  Passed : Int
  Count : Int
  Policy : String
  Confidence : ℚ
  Timestamp : Int
  deriving DecidableEq, Repr

/-- The constant `time.Minute`, in nanoseconds. -/
def Minute : Int := 60000000000

/-- Method `Duration.Minutes`: the duration as a number of minutes, fractions kept. -/
def Minutes (d : Int) : ℚ := (d : ℚ) / 60000000000

/-- Function `math.Round`: the nearest integer, halves away from zero. -/
def Round (x : ℚ) : ℚ :=
  if 0 ≤ x then (⌊x + 1 / 2⌋ : ℚ) else -(⌊-x + 1 / 2⌋ : ℚ)

/-- The swap function `sort.Slice` builds for a slice (`reflectlite.Swapper`): exchange the
elements at `i` and `j`. -/
def swapAt {α : Type} (data : List α) (i j : Nat) : List α :=
  match data[i]?, data[j]? with
  | some x, some y => (data.set i y).set j x
  | _, _ => data

/-- Inner loop of the insertion sort of package `sort`,
`for j := i; j > 0 && less(j, j-1); j-- { swap(j, j-1) }`, entered with `j`. The
comparison `less` is a closure over indices; it is given the present content of the slice
being sorted, which it may or may not look at. -/
def insertionInner {α : Type} (less : List α → Nat → Nat → Bool) : Nat → List α → List α
  | 0, data => data
  | j + 1, data =>
    if less data (j + 1) j then insertionInner less j (swapAt data (j + 1) j) else data

/-- Function `sort.Slice(x, less)`, as the insertion sort
`for i := 1; i < n; i++ { for j := i; j > 0 && less(j, j-1); j-- { swap(j, j-1) } }`.
This is the whole of what `sort.Slice` runs on a slice of at most 12 elements (the
`maxInsertion` bound of its pattern-defeating quicksort; releases before Go 1.19 agree up to
6 elements). The partitioning it does first on a longer slice is not modelled. -/
def sortSlice {α : Type} (less : List α → Nat → Nat → Bool) (data : List α) : List α :=
  (List.range' 1 (data.length - 1)).foldl (fun d i => insertionInner less i d) data

/-- The window filter of `calcAttestationScore`: with `TimeRangeMins == 0` the input slice
itself, otherwise a fresh slice of the annotations whose timestamp is `After` the window
start less the cadence. -/
def filterAnnotations (now : Int) (attestAnnotations : List Annotation)
    (opts : AttestationOptions) : List Annotation :=
  if opts.TimeRangeMins = 0 then attestAnnotations
  else
    let earliestAttestLimit := now + -Minute * opts.TimeRangeMins
    attestAnnotations.filter fun a =>
      decide (a.Timestamp > earliestAttestLimit + -Minute * opts.CadenceThresholdMins)

/-- The comparison closure handed to `sort.Slice` in `calcAttestationScore`,
`attestAnnotations[i].Timestamp.Before(attestAnnotations[j].Timestamp)`. It indexes
`attestAnnotations`, not the slice being sorted. With `TimeRangeMins == 0` the two share one
backing array, so the closure sees the swaps (`cur`); otherwise `filteredAnnotations` was
built by `append` in an array of its own and the closure keeps reading the untouched input. -/
def sortLess (attestAnnotations : List Annotation) (opts : AttestationOptions)
    (cur : List Annotation) (i j : Nat) : Bool :=
  let seen := if opts.TimeRangeMins = 0 then cur else attestAnnotations
  decide ((seen.getD i zeroAnnotation).Timestamp < (seen.getD j zeroAnnotation).Timestamp)

/-- One round of the loop `for _, a := range filteredAnnotations` of `calcAttestationScore`
on the pair (`trustedAttestationPeriod`, `prevAttest`). -/
def walkStep (opts : AttestationOptions) (earliestAttestLimit : Int)
    (st : ℚ × Annotation) (a : Annotation) : ℚ × Annotation :=
  if a.Timestamp < earliestAttestLimit then
    ((opts.CadenceThresholdMins : ℚ) - Minutes (earliestAttestLimit - a.Timestamp), st.2)
  else if st.2 = zeroAnnotation then
    (st.1, a)
  else
    (st.1 + min (Minutes (a.Timestamp - st.2.Timestamp)) (opts.CadenceThresholdMins : ℚ), a)

/-- Function `calcAttestationScore(attestAnnotations, opts, weight)`, the clock reading
`now`. -/
def calcAttestationScore (now : Int) (attestAnnotations : List Annotation)
    (opts : AttestationOptions) (weight : Int) : ℚ :=
  let filteredAnnotations := filterAnnotations now attestAnnotations opts
  if filteredAnnotations.length = 0 then 0 -- no attestations found
  else
    let filteredAnnotations := sortSlice (sortLess attestAnnotations opts) filteredAnnotations
    let earliestAttestLimit : Int :=
      if opts.TimeRangeMins = 0 then (filteredAnnotations.headD zeroAnnotation).Timestamp
      else now + -Minute * opts.TimeRangeMins
    let st := filteredAnnotations.foldl (walkStep opts earliestAttestLimit) (0, zeroAnnotation)
    let trustedAttestationPeriod : ℚ :=
      if st.2 ≠ zeroAnnotation then
        st.1 + min (Minutes (now - st.2.Timestamp)) (opts.CadenceThresholdMins : ℚ)
      else st.1
    trustedAttestationPeriod / Minutes (now - earliestAttestLimit) * (weight : ℚ)

/-- One round of the loop `for _, a := range genericAnnotations` of `NewScore` on the triple
(`totalWeight`, `passedWeight`, `passed`). -/
def genericStep (policy : DcfPolicy) (st : ℚ × ℚ × Int) (a : Annotation) : ℚ × ℚ × Int :=
  let w := policy.FetchWeight a.Kind
  if a.IsSatisfied then (st.1 + (w.Value : ℚ), st.2.1 + (w.Value : ℚ), st.2.2 + 1)
  else (st.1 + (w.Value : ℚ), st.2.1, st.2.2)

/-- Function `NewScore(dataRef, annotations, policy)`. The clock reading `now` and the
identifier `key` that `NewULID()` draws are arguments. -/
def NewScore (now : Int) (key : ULID) (dataRef : String) (annotations : List Annotation)
    (policy : DcfPolicy) : Score :=
  -- Annotations with unique score calculation separated from other "generic" annotations
  let attestAnnotations := annotations.filter fun a => decide (a.Kind = AnnotationAttestation)
  let genericAnnotations := annotations.filter fun a => !decide (a.Kind = AnnotationAttestation)
  let st := genericAnnotations.foldl (genericStep policy) (0, 0, 0)
  -- Attestation score calculation separate from others then added to total
  let attestationWeight := policy.FetchWeight AnnotationAttestation
  let passedAttest :=
    calcAttestationScore now attestAnnotations policy.AttestationOptions attestationWeight.Value
  let passedWeight := st.2.1 + passedAttest
  let totalWeight := st.1 + (attestationWeight.Value : ℚ)
  let confidence := passedWeight / totalWeight
  let confidence := Round (confidence * 100) / 100
  { Key := key
    DataRef := dataRef
    Passed := st.2.2
    Count := annotations.length
    Policy := policy.Name
    Confidence := confidence
    Timestamp := now }

end documents

namespace documents

open policies

/-- The local variable `totalWeight` of `NewScore` when it is divided by: the weights of the
generic annotations and the weight of the attestation kind. -/
def NewScore_totalWeight (annotations : List Annotation) (policy : DcfPolicy) : ℚ :=
  let genericAnnotations := annotations.filter fun a => !decide (a.Kind = AnnotationAttestation)
  (genericAnnotations.foldl (genericStep policy) (0, 0, 0)).1 +
    ((policy.FetchWeight AnnotationAttestation).Value : ℚ)

/-- The three annotations of `TestAttestScoreCalculation`, in the order of the test, the
clock reading `now` when they are built. -/
def testAnnotations (now : Int) : List Annotation :=
  [ { Key := "1", DataRef := "", Hash := "", Host := "", Kind := "", Signature := "",
      IsSatisfied := true, Timestamp := now + -60 * Minute },
    { Key := "2", DataRef := "", Hash := "", Host := "", Kind := "", Signature := "",
      IsSatisfied := true, Timestamp := now + -90 * Minute },
    { Key := "3", DataRef := "", Hash := "", Host := "", Kind := "", Signature := "",
      IsSatisfied := true, Timestamp := now + -200 * Minute } ]

/-- The instant `k` minutes before `now`, as `now.Add(-time.Minute * k)` computes it. -/
def ago (now k : Int) : Int := now + -Minute * k

/-- A satisfied attestation annotation made `k` minutes before `now`. -/
def attestationAt (key : String) (now k : Int) : Annotation :=
  { Key := key, DataRef := "data", Hash := "", Host := "", Kind := AnnotationAttestation,
    Signature := "", IsSatisfied := true, Timestamp := ago now k }

/-- A policy with no weight of its own. -/
def bareP (cadence timeRange : Int) : DcfPolicy :=
  { Name := "bare", Weights := [],
    AttestationOptions := { CadenceThresholdMins := cadence, TimeRangeMins := timeRange } }

/-- The slice that the loop of `calcAttestationScore` ranges over: the filtered annotations
as `sort.Slice` leaves them. -/
def walkedAnnotations (now : Int) (attestAnnotations : List Annotation)
    (opts : AttestationOptions) : List Annotation :=
  sortSlice (sortLess attestAnnotations opts) (filterAnnotations now attestAnnotations opts)

/-- One run of the inner loop of the insertion sort, told on the part of the slice already
in order and written last element first: `x` moves past every element that is later than
it and stops at the first that is not. -/
def insertRev (x : Annotation) : List Annotation → List Annotation
  | [] => [x]
  | p :: ps => if x.Timestamp < p.Timestamp then p :: insertRev x ps else x :: p :: ps

/-- The covered minutes in the words of the closed formula: over ascending instants
`t1, ..., tn`, the sum of `min(t(i+1) - ti, cadence)` for `i < n`, and `min(now - tn, cadence)`. -/
def coveredSpec (now cadence : Int) : List Int → ℚ
  | [] => 0
  | [t] => min (Minutes (now - t)) (cadence : ℚ)
  | t :: t' :: rest =>
    min (Minutes (t' - t)) (cadence : ℚ) + coveredSpec now cadence (t' :: rest)

end documents

/-! ## The machine formats

The definitions above compute in exact rationals. The ones below follow the same source
lines with the machine formats of the code: `float32` and `float64` values are the
rationals those formats hold, every operation rounds its exact result to the nearest value
of its format (ties to even), `time.Time.Sub` saturates at the ends of `time.Duration`, and
the product of durations wraps in 64 bits. Not modelled: the infinities and `NaN` (no exact
result here reaches the overflow threshold of its format on a slice that fits in memory; a
division by zero yields `0`), and the sign of zero. -/

namespace documents

open policies

/-- The exponent of the leading binary digit of a natural number `n`, by halving at most
`fuel` times: `2 ^ log2Fuel n n ≤ n < 2 ^ (log2Fuel n n + 1)` when `n` is not zero. -/
def log2Fuel : Nat → Nat → Nat
  | 0, _ => 0
  | fuel + 1, n => if n < 2 then 0 else log2Fuel fuel (n / 2) + 1

/-- The exponent of the leading binary digit of a rational that is not zero:
`2 ^ ilog2 x ≤ |x| < 2 ^ (ilog2 x + 1)`. -/
def ilog2 (x : ℚ) : Int :=
  let k : Int := (log2Fuel x.num.natAbs x.num.natAbs : Int) - (log2Fuel x.den x.den : Int)
  if (2 : ℚ) ^ k ≤ |x| then k else k - 1

/-- The integer nearest to `m`, a tie going to the even one. -/
def roundHalfEven (m : ℚ) : Int :=
  let f := ⌊m⌋
  if m - f < 1 / 2 then f
  else if 1 / 2 < m - f then f + 1
  else if f % 2 = 0 then f else f + 1

/-- Rounding to the nearest value of a binary format with `p` significant bits whose
smallest positive value is `2 ^ emin`, ties to even (the rounding of IEEE 754 arithmetic). -/
def roundNE (p : Nat) (emin : Int) (x : ℚ) : ℚ :=
  if x = 0 then 0
  else
    let e := max (ilog2 x - ((p : Int) - 1)) emin
    (roundHalfEven (x / (2 : ℚ) ^ e) : ℚ) * (2 : ℚ) ^ e

/-- Rounding to `float32`: 24 significant bits, smallest positive value `2 ^ -149`. -/
def F32 (x : ℚ) : ℚ := roundNE 24 (-149) x

/-- Rounding to `float64`: 53 significant bits, smallest positive value `2 ^ -1074`. -/
def F64 (x : ℚ) : ℚ := roundNE 53 (-1074) x

/-- The largest `time.Duration`, `1<<63 - 1` nanoseconds. -/
def maxDuration : Int := 9223372036854775807

/-- The smallest `time.Duration`, `-1 << 63` nanoseconds. -/
def minDuration : Int := -9223372036854775808

/-- A product or sum of `int64` values as the machine keeps it: modulo `2 ^ 64`, in
`[-2 ^ 63, 2 ^ 63)`. -/
def wrap64 (x : Int) : Int :=
  (x + 9223372036854775808) % 18446744073709551616 - 9223372036854775808

/-- Method `Time.Sub`: the duration `t - u`, or the smallest or largest duration when the
difference is out of range. -/
def Sub (t u : Int) : Int :=
  if t - u < minDuration then minDuration
  else if maxDuration < t - u then maxDuration
  else t - u

/-- Method `Duration.Minutes` in `float64`:
`min := d / Minute; nsec := d % Minute; return float64(min) + float64(nsec)/(60*1e9)`. -/
def Minutes64 (d : Int) : ℚ :=
  F64 (F64 (Int.tdiv d Minute : Int) + F64 (F64 (Int.tmod d Minute : Int) / 60000000000))

/-- The window filter of `calcAttestationScore` with the durations
`-time.Minute * time.Duration(...)` wrapped in 64 bits. -/
def filterAnnotations64 (now : Int) (attestAnnotations : List Annotation)
    (opts : AttestationOptions) : List Annotation :=
  if opts.TimeRangeMins = 0 then attestAnnotations
  else
    let earliestAttestLimit := now + wrap64 (-Minute * opts.TimeRangeMins)
    attestAnnotations.filter fun a =>
      decide (a.Timestamp > earliestAttestLimit + wrap64 (-Minute * opts.CadenceThresholdMins))

/-- One round of the loop of `calcAttestationScore` in the machine formats:
`trustedAttestationPeriod` is a `float32`, the minutes and their `math.Min` with the
cadence are `float64`. -/
def walkStep32 (opts : AttestationOptions) (earliestAttestLimit : Int)
    (st : ℚ × Annotation) (a : Annotation) : ℚ × Annotation :=
  if a.Timestamp < earliestAttestLimit then
    (F32 (F32 (opts.CadenceThresholdMins : ℚ) -
      F32 (Minutes64 (Sub earliestAttestLimit a.Timestamp))), st.2)
  else if st.2 = zeroAnnotation then
    (st.1, a)
  else
    (F32 (st.1 + F32 (min (Minutes64 (Sub a.Timestamp st.2.Timestamp))
      (F64 (opts.CadenceThresholdMins : ℚ)))), a)

/-- Function `calcAttestationScore` in the machine formats, the clock reading `now`. -/
def calcAttestationScore32 (now : Int) (attestAnnotations : List Annotation)
    (opts : AttestationOptions) (weight : Int) : ℚ :=
  let filteredAnnotations := filterAnnotations64 now attestAnnotations opts
  if filteredAnnotations.length = 0 then 0 -- no attestations found
  else
    let filteredAnnotations := sortSlice (sortLess attestAnnotations opts) filteredAnnotations
    let earliestAttestLimit : Int :=
      if opts.TimeRangeMins = 0 then (filteredAnnotations.headD zeroAnnotation).Timestamp
      else now + wrap64 (-Minute * opts.TimeRangeMins)
    let st := filteredAnnotations.foldl (walkStep32 opts earliestAttestLimit) (0, zeroAnnotation)
    let trustedAttestationPeriod : ℚ :=
      if st.2 ≠ zeroAnnotation then
        F32 (st.1 + F32 (min (Minutes64 (Sub now st.2.Timestamp))
          (F64 (opts.CadenceThresholdMins : ℚ))))
      else st.1
    F32 (F32 (trustedAttestationPeriod / F32 (Minutes64 (Sub now earliestAttestLimit))) *
      F32 (weight : ℚ))

/-- One round of the loop over the generic annotations of `NewScore` in `float32`. -/
def genericStep32 (policy : DcfPolicy) (st : ℚ × ℚ × Int) (a : Annotation) : ℚ × ℚ × Int :=
  let w := policy.FetchWeight a.Kind
  if a.IsSatisfied then
    (F32 (st.1 + F32 (w.Value : ℚ)), F32 (st.2.1 + F32 (w.Value : ℚ)), st.2.2 + 1)
  else (F32 (st.1 + F32 (w.Value : ℚ)), st.2.1, st.2.2)

/-- Function `NewScore` in the machine formats: the two weights and their quotient are
`float32`, the rounding to two decimals is done in `float64`. -/
def NewScore32 (now : Int) (key : ULID) (dataRef : String) (annotations : List Annotation)
    (policy : DcfPolicy) : Score :=
  let attestAnnotations := annotations.filter fun a => decide (a.Kind = AnnotationAttestation)
  let genericAnnotations := annotations.filter fun a => !decide (a.Kind = AnnotationAttestation)
  let st := genericAnnotations.foldl (genericStep32 policy) (0, 0, 0)
  let attestationWeight := policy.FetchWeight AnnotationAttestation
  let passedAttest :=
    calcAttestationScore32 now attestAnnotations policy.AttestationOptions attestationWeight.Value
  let passedWeight := F32 (st.2.1 + passedAttest)
  let totalWeight := F32 (st.1 + F32 (attestationWeight.Value : ℚ))
  let confidence := F32 (passedWeight / totalWeight)
  let confidence := F64 (Round (F64 (confidence * 100)) / 100)
  { Key := key
    DataRef := dataRef
    Passed := st.2.2
    Count := annotations.length
    Policy := policy.Name
    Confidence := confidence
    Timestamp := now }

/-- The sum of `float32` values taken in order, each addition rounded. -/
def sum32 (l : List ℚ) : ℚ := l.foldl (fun s x => F32 (s + x)) 0

/-- The covered minutes of the closed formula in the machine formats, over ascending
instants `t1, ..., tn`: each `min(t(i+1) - ti, cadence)`, then `min(now - tn, cadence)`, is
taken in `float64`, rounded to `float32` and added in `float32` to the sum `acc` so far. -/
def coveredSpec32 (now cadence : Int) : ℚ → List Int → ℚ
  | acc, [] => acc
  | acc, [t] => F32 (acc + F32 (min (Minutes64 (now - t)) (F64 (cadence : ℚ))))
  | acc, t :: t' :: rest =>
    coveredSpec32 now cadence
      (F32 (acc + F32 (min (Minutes64 (t' - t)) (F64 (cadence : ℚ))))) (t' :: rest)

/-- A satisfied attestation annotation made `s` seconds before `now`. -/
def attestationSecondsAgo (key : String) (now s : Int) : Annotation :=
  { Key := key, DataRef := "data", Hash := "", Host := "", Kind := AnnotationAttestation,
    Signature := "", IsSatisfied := true, Timestamp := now - s * 1000000000 }

/-- An annotation of kind `kind`, satisfied or not. -/
def genericOf (kind : String) (satisfied : Bool) : Annotation :=
  { Key := kind, DataRef := "data", Hash := "", Host := "", Kind := kind, Signature := "",
    IsSatisfied := satisfied, Timestamp := 0 }

/-- A policy that weighs `tpm` 9 and `tls` 10. -/
def nineTenP : DcfPolicy :=
  { Name := "nine-ten",
    Weights := [{ AnnotationKey := "tpm", Value := 9 }, { AnnotationKey := "tls", Value := 10 }],
    AttestationOptions := { CadenceThresholdMins := 50, TimeRangeMins := 0 } }

end documents

/-! ## Policies: weight lookup and decoding -/

namespace policies

/-- A scan that meets no matching key returns the weight it started from. -/
theorem fetchLoop_of_no_match (key : String) (w : Weight) (ws : List Weight)
    (h : ∀ item ∈ ws, item.AnnotationKey ≠ key) : fetchLoop key w ws = w := by
  induction ws with
  | nil => rfl
  | cons item rest ih =>
    have hne : item.AnnotationKey ≠ key := h item (List.mem_cons_self _ _)
    have hrest : ∀ x ∈ rest, x.AnnotationKey ≠ key :=
      fun x hx => h x (List.mem_cons_of_mem _ hx)
    simp [fetchLoop, hne, ih hrest]

/-- C6: for every policy `P` and kind `k` that no weight of `P.Weights` carries as its key,
`P.FetchWeight k` is the synthetic weight with key `k` and value 1; the lookup has no
failure outcome at all. -/
theorem FetchWeight_of_absent (P : DcfPolicy) (k : String)
    (h : ∀ w ∈ P.Weights, w.AnnotationKey ≠ k) :
    P.FetchWeight k = { AnnotationKey := k, Value := 1 } := by
  simp [DcfPolicy.FetchWeight, fetchLoop_of_no_match k _ P.Weights h]

/-- C6 at a policy that weighs `tpm` and `tls`, asked for `pki`. -/
theorem FetchWeight_of_absent_witness :
    (∀ w ∈ [({ AnnotationKey := "tpm", Value := 5 } : Weight),
        { AnnotationKey := "tls", Value := 3 }], w.AnnotationKey ≠ "pki") ∧
      DcfPolicy.FetchWeight
        { Name := "p",
          Weights := [{ AnnotationKey := "tpm", Value := 5 }, { AnnotationKey := "tls", Value := 3 }],
          AttestationOptions := { CadenceThresholdMins := 50, TimeRangeMins := 0 } } "pki"
        = { AnnotationKey := "pki", Value := 1 } :=
  ⟨by decide, FetchWeight_of_absent _ "pki" (by decide)⟩

/-- C7: decoding a weight record whose raw value is `v` (0 when the member is absent) gives,
with no error, the weight of the same key and value `clampSpec v`; that value lies in
[1,10] and is `v` itself when `v` already lies in [1,10]. The receiver's former content
plays no part. -/
theorem Weight_UnmarshalJSON_clamps (w : Weight) (r : WeightRecord) :
    Weight.UnmarshalJSON w (.ok r) =
        ({ AnnotationKey := r.key.getD "", Value := clampSpec (r.value.getD 0) }, none) ∧
      1 ≤ clampSpec (r.value.getD 0) ∧ clampSpec (r.value.getD 0) ≤ 10 ∧
      (1 ≤ r.value.getD 0 ∧ r.value.getD 0 ≤ 10 → clampSpec (r.value.getD 0) = r.value.getD 0) := by
  refine ⟨?_, ?_, ?_, ?_⟩
  · simp only [Weight.UnmarshalJSON, WeightRecord.toAlias, clampSpec]
    split_ifs <;> rfl
  · unfold clampSpec; split_ifs <;> omega
  · unfold clampSpec; split_ifs <;> omega
  · intro h; unfold clampSpec; split_ifs <;> omega

/-- C7 at the three records of `TestWeightUnmarshal`: value 5, value absent, value 100. -/
theorem Weight_UnmarshalJSON_clamps_witness :
    (Weight.UnmarshalJSON { AnnotationKey := "", Value := 0 }
        (.ok { key := some "tpm", value := some 5 })).1 = { AnnotationKey := "tpm", Value := 5 } ∧
      (Weight.UnmarshalJSON { AnnotationKey := "", Value := 0 }
        (.ok { key := some "min", value := none })).1 = { AnnotationKey := "min", Value := 1 } ∧
      (Weight.UnmarshalJSON { AnnotationKey := "", Value := 0 }
        (.ok { key := some "max", value := some 100 })).1 = { AnnotationKey := "max", Value := 10 } :=
  ⟨by rw [(Weight_UnmarshalJSON_clamps _ _).1]; decide,
   by rw [(Weight_UnmarshalJSON_clamps _ _).1]; decide,
   by rw [(Weight_UnmarshalJSON_clamps _ _).1]; decide⟩

/-- C8: decoding attestation options from the raw integers `cadence` and `timeRange` (0 for
an absent member) returns an error exactly when `cadence ≤ 0` or `timeRange < 0`; when it
returns none, the receiver holds exactly `cadence` and `timeRange`. -/
theorem AttestationOptions_UnmarshalJSON_validates (opts : AttestationOptions)
    (r : AttestationRecord) :
    ((AttestationOptions.UnmarshalJSON opts (.ok r)).2 ≠ none ↔
        (r.cadenceThresholdMins.getD 0 ≤ 0 ∨ r.timeRange.getD 0 < 0)) ∧
      ((AttestationOptions.UnmarshalJSON opts (.ok r)).2 = none →
        (AttestationOptions.UnmarshalJSON opts (.ok r)).1 =
          { CadenceThresholdMins := r.cadenceThresholdMins.getD 0,
            TimeRangeMins := r.timeRange.getD 0 }) := by
  simp only [AttestationOptions.UnmarshalJSON, AttestationRecord.toAlias]
  split_ifs with h1 h2
  · simp [h1]
  · simp [h2]
  · simp [h1, h2]

/-- C8 at the records of `TestAttestationOptsUnmarshal`: (50, 2) is accepted unchanged,
(0, 2) and (50, -1) are refused. -/
theorem AttestationOptions_UnmarshalJSON_validates_witness :
    AttestationOptions.UnmarshalJSON { CadenceThresholdMins := 0, TimeRangeMins := 0 }
        (.ok { cadenceThresholdMins := some 50, timeRange := some 2 })
        = ({ CadenceThresholdMins := 50, TimeRangeMins := 2 }, none) ∧
      (AttestationOptions.UnmarshalJSON { CadenceThresholdMins := 0, TimeRangeMins := 0 }
        (.ok { cadenceThresholdMins := none, timeRange := some 2 })).2 ≠ none ∧
      (AttestationOptions.UnmarshalJSON { CadenceThresholdMins := 0, TimeRangeMins := 0 }
        (.ok { cadenceThresholdMins := some 50, timeRange := some (-1) })).2 ≠ none :=
  ⟨Prod.ext
      ((AttestationOptions_UnmarshalJSON_validates _
        { cadenceThresholdMins := some 50, timeRange := some 2 }).2 (by decide))
      (by decide),
   (AttestationOptions_UnmarshalJSON_validates _ _).1.2 (Or.inl (by decide)),
   (AttestationOptions_UnmarshalJSON_validates _ _).1.2 (Or.inr (by decide))⟩

end policies

/-! ## The local policy provider -/

namespace policy

open policies

/-- The weights loop fails exactly when no policy bears the name. -/
theorem getWeightsLoop_error_iff (c : String) (ps : List DcfPolicy) :
    (∃ e, getWeightsLoop c ps = .error e) ↔ ∀ p ∈ ps, p.Name ≠ c := by
  induction ps with
  | nil => simp [getWeightsLoop]
  | cons p rest ih =>
    by_cases hp : p.Name = c
    · simp [getWeightsLoop, hp]
    · simp [getWeightsLoop, hp, ih]

/-- The options loop fails exactly when no policy bears the name. -/
theorem getAttestationOptsLoop_error_iff (c : String) (ps : List DcfPolicy) :
    (∃ e, getAttestationOptsLoop c ps = .error e) ↔ ∀ p ∈ ps, p.Name ≠ c := by
  induction ps with
  | nil => simp [getAttestationOptsLoop]
  | cons p rest ih =>
    by_cases hp : p.Name = c
    · simp [getAttestationOptsLoop, hp]
    · simp [getAttestationOptsLoop, hp, ih]

/-- Both loops answer from the first policy that bears the name. -/
theorem loops_of_find (c : String) (ps : List DcfPolicy) (p : DcfPolicy)
    (h : ps.find? (fun q => decide (q.Name = c)) = some p) :
    getWeightsLoop c ps = .ok p.Weights ∧
      getAttestationOptsLoop c ps = .ok p.AttestationOptions := by
  induction ps with
  | nil => simp at h
  | cons q rest ih =>
    by_cases hq : q.Name = c
    · have hpq : q = p := by simpa [List.find?, hq] using h
      subst hpq
      simp [getWeightsLoop, getAttestationOptsLoop, hq]
    · have hrest : rest.find? (fun q => decide (q.Name = c)) = some p := by
        simpa [List.find?, hq] using h
      simp [getWeightsLoop, getAttestationOptsLoop, hq, ih hrest]

/-- C9: for every provider and classifier `c`, `GetWeights c` returns an error exactly when
no loaded policy is named `c`, and so does `GetAttestationOpts c`; when a policy is named
`c`, they return the weights and the attestation options of the first such policy. -/
theorem LocalPolicyProvider_lookup (lp : LocalPolicyProvider) (c : String) :
    ((∃ e, lp.GetWeights c = .error e) ↔ ∀ p ∈ lp.policy, p.Name ≠ c) ∧
      ((∃ e, lp.GetAttestationOpts c = .error e) ↔ ∀ p ∈ lp.policy, p.Name ≠ c) ∧
      (∀ p, lp.policy.find? (fun q => decide (q.Name = c)) = some p →
        lp.GetWeights c = .ok p.Weights ∧
          lp.GetAttestationOpts c = .ok p.AttestationOptions) :=
  ⟨getWeightsLoop_error_iff c lp.policy, getAttestationOptsLoop_error_iff c lp.policy,
    fun p h => loops_of_find c lp.policy p h⟩

/-- C9 at a provider holding two policies named `edge` and one named `core`: `edge` is
answered from the first of the two, and the unknown `cloud` is refused by both lookups. -/
theorem LocalPolicyProvider_lookup_witness :
    LocalPolicyProvider.GetWeights
        { policy :=
            [{ Name := "edge", Weights := [{ AnnotationKey := "tpm", Value := 5 }],
               AttestationOptions := { CadenceThresholdMins := 50, TimeRangeMins := 0 } },
             { Name := "core", Weights := [],
               AttestationOptions := { CadenceThresholdMins := 20, TimeRangeMins := 100 } },
             { Name := "edge", Weights := [{ AnnotationKey := "tls", Value := 2 }],
               AttestationOptions := { CadenceThresholdMins := 10, TimeRangeMins := 50 } }] }
        "edge" = .ok [{ AnnotationKey := "tpm", Value := 5 }] ∧
      (∃ e, LocalPolicyProvider.GetAttestationOpts
        { policy :=
            [{ Name := "edge", Weights := [{ AnnotationKey := "tpm", Value := 5 }],
               AttestationOptions := { CadenceThresholdMins := 50, TimeRangeMins := 0 } },
             { Name := "core", Weights := [],
               AttestationOptions := { CadenceThresholdMins := 20, TimeRangeMins := 100 } },
             { Name := "edge", Weights := [{ AnnotationKey := "tls", Value := 2 }],
               AttestationOptions := { CadenceThresholdMins := 10, TimeRangeMins := 50 } }] }
        "cloud" = .error e) :=
  ⟨((LocalPolicyProvider_lookup _ "edge").2.2
      { Name := "edge", Weights := [{ AnnotationKey := "tpm", Value := 5 }],
        AttestationOptions := { CadenceThresholdMins := 50, TimeRangeMins := 0 } }
      (by decide)).1,
   (LocalPolicyProvider_lookup _ "cloud").2.1.2 (by decide)⟩

end policy

/-! ## Scores -/

namespace documents

open policies

theorem ago_of_neg_mul (now k : Int) : now + -(Minute * k) = ago now k := by
  simp [ago]

theorem ago_of_neg_mul_comm (now k : Int) : now + -(k * Minute) = ago now k := by
  simp [ago, mul_comm]

theorem ago_ago (now a k : Int) : ago (ago now a) k = ago now (a + k) := by
  simp only [ago]; ring

theorem ago_lt_ago (now a b : Int) : (ago now a < ago now b) ↔ b < a := by
  simp only [ago, Minute]; constructor <;> intro h <;> omega

theorem Minutes_ago_sub_ago (now a b : Int) :
    Minutes (ago now a - ago now b) = (b : ℚ) - a := by
  simp only [ago, Minutes, Minute]; push_cast; ring

theorem Minutes_sub_ago (now a : Int) : Minutes (now - ago now a) = (a : ℚ) := by
  simp only [ago, Minutes, Minute]; push_cast; ring

/-- The value of `calcAttestationScore` once the filtered slice, its order after
`sort.Slice` and the outcome of the walk are known. -/
theorem calcAttestationScore_eq_of (now : Int) (attest : List Annotation)
    (opts : AttestationOptions) (weight : Int) (filtered sorted : List Annotation)
    (st : ℚ × Annotation)
    (hf : filterAnnotations now attest opts = filtered) (hne : filtered ≠ [])
    (hs : sortSlice (sortLess attest opts) filtered = sorted)
    (hw : sorted.foldl
        (walkStep opts (if opts.TimeRangeMins = 0 then (sorted.headD zeroAnnotation).Timestamp
          else now + -Minute * opts.TimeRangeMins)) (0, zeroAnnotation) = st) :
    calcAttestationScore now attest opts weight =
      (if st.2 ≠ zeroAnnotation then
          st.1 + min (Minutes (now - st.2.Timestamp)) (opts.CadenceThresholdMins : ℚ)
        else st.1) /
        Minutes (now - (if opts.TimeRangeMins = 0 then (sorted.headD zeroAnnotation).Timestamp
          else now + -Minute * opts.TimeRangeMins)) * (weight : ℚ) := by
  subst hf hs hw
  have : (filterAnnotations now attest opts).length ≠ 0 := by
    simpa [List.length_eq_zero] using hne
  simp only [calcAttestationScore, this, if_false]

/-- With nothing left by the window filter the score is 0. -/
theorem calcAttestationScore_of_filter_nil (now : Int) (attest : List Annotation)
    (opts : AttestationOptions) (weight : Int)
    (hf : filterAnnotations now attest opts = []) :
    calcAttestationScore now attest opts weight = 0 := by
  simp [calcAttestationScore, hf]

/-- First scenario of the test: cadence 50, the whole history. -/
theorem test_scenario_full_range (now : Int) :
    calcAttestationScore now (testAnnotations now) ⟨50, 0⟩ 1 = 130 / 200 := by
  have hs : sortSlice (sortLess (testAnnotations now) ⟨50, 0⟩) (testAnnotations now)
      = (testAnnotations now).reverse := by
    simp [sortSlice, sortLess, insertionInner, swapAt, testAnnotations, List.range',
      ago_of_neg_mul, ago_of_neg_mul_comm, ago_ago, ago_lt_ago]
  rw [calcAttestationScore_eq_of now _ _ _ _ _ _ (by simp [filterAnnotations])
    (by simp [testAnnotations]) hs rfl]
  simp [testAnnotations, walkStep, zeroAnnotation, ago_of_neg_mul, ago_of_neg_mul_comm,
    ago_ago, ago_lt_ago, Minutes_ago_sub_ago, Minutes_sub_ago]
  norm_num

/-- Second scenario of the test: cadence 20, the last 100 minutes. -/
theorem test_scenario_last_100 (now : Int) :
    calcAttestationScore now (testAnnotations now) ⟨20, 100⟩ 1 = 40 / 100 := by
  have hf : filterAnnotations now (testAnnotations now) ⟨20, 100⟩
      = (testAnnotations now).take 2 := by
    simp [filterAnnotations, testAnnotations, ago_of_neg_mul, ago_of_neg_mul_comm,
      ago_ago, ago_lt_ago]
  have hs : sortSlice (sortLess (testAnnotations now) ⟨20, 100⟩) ((testAnnotations now).take 2)
      = ((testAnnotations now).take 2).reverse := by
    simp [sortSlice, sortLess, insertionInner, swapAt, testAnnotations, List.range',
      ago_of_neg_mul, ago_of_neg_mul_comm, ago_ago, ago_lt_ago]
  rw [calcAttestationScore_eq_of now _ _ _ _ _ _ hf (by simp [testAnnotations]) hs rfl]
  simp [testAnnotations, walkStep, zeroAnnotation, ago_of_neg_mul, ago_of_neg_mul_comm,
    ago_ago, ago_lt_ago, Minutes_ago_sub_ago, Minutes_sub_ago]
  norm_num

/-- Third scenario of the test: cadence 10, the last 50 minutes; nothing passes the filter. -/
theorem test_scenario_last_50 (now : Int) :
    calcAttestationScore now (testAnnotations now) ⟨10, 50⟩ 1 = 0 := by
  apply calcAttestationScore_of_filter_nil
  simp [filterAnnotations, testAnnotations, ago_of_neg_mul, ago_of_neg_mul_comm,
    ago_ago, ago_lt_ago]

/-- Fourth scenario of the test: cadence 50, the last 180 minutes. -/
theorem test_scenario_before_start_1 (now : Int) :
    calcAttestationScore now (testAnnotations now) ⟨50, 180⟩ 1 = 110 / 180 := by
  have hf : filterAnnotations now (testAnnotations now) ⟨50, 180⟩ = testAnnotations now := by
    simp [filterAnnotations, testAnnotations, ago_of_neg_mul, ago_of_neg_mul_comm,
      ago_ago, ago_lt_ago]
  have hs : sortSlice (sortLess (testAnnotations now) ⟨50, 180⟩) (testAnnotations now)
      = (testAnnotations now).reverse := by
    simp [sortSlice, sortLess, insertionInner, swapAt, testAnnotations, List.range',
      ago_of_neg_mul, ago_of_neg_mul_comm, ago_ago, ago_lt_ago]
  rw [calcAttestationScore_eq_of now _ _ _ _ _ _ hf (by simp [testAnnotations]) hs rfl]
  simp [testAnnotations, walkStep, zeroAnnotation, ago_of_neg_mul, ago_of_neg_mul_comm,
    ago_ago, ago_lt_ago, Minutes_ago_sub_ago, Minutes_sub_ago]
  norm_num

/-- Fifth scenario of the test: cadence 50, the last 50 minutes. -/
theorem test_scenario_before_start_2 (now : Int) :
    calcAttestationScore now (testAnnotations now) ⟨50, 50⟩ 1 = 40 / 50 := by
  have hf : filterAnnotations now (testAnnotations now) ⟨50, 50⟩
      = (testAnnotations now).take 2 := by
    simp [filterAnnotations, testAnnotations, ago_of_neg_mul, ago_of_neg_mul_comm,
      ago_ago, ago_lt_ago]
  have hs : sortSlice (sortLess (testAnnotations now) ⟨50, 50⟩) ((testAnnotations now).take 2)
      = ((testAnnotations now).take 2).reverse := by
    simp [sortSlice, sortLess, insertionInner, swapAt, testAnnotations, List.range',
      ago_of_neg_mul, ago_of_neg_mul_comm, ago_ago, ago_lt_ago]
  rw [calcAttestationScore_eq_of now _ _ _ _ _ _ hf (by simp [testAnnotations]) hs rfl]
  simp [testAnnotations, walkStep, zeroAnnotation, ago_of_neg_mul, ago_of_neg_mul_comm,
    ago_ago, ago_lt_ago, Minutes_ago_sub_ago, Minutes_sub_ago]
  norm_num

/-- In exact arithmetic: with the clock fixed at any `now`, weight 1 and the three
annotations of the test in its order (60, 90 and 200 minutes before `now`), `calcAttestationScore` returns exactly
130/200 for cadence 50 and range 0, 40/100 for cadence 20 and range 100, 0 for cadence 10
and range 50, 110/180 for cadence 50 and range 180, and 40/50 for cadence 50 and range 50. -/
theorem calcAttestationScore_test_scenarios (now : Int) :
    calcAttestationScore now (testAnnotations now) ⟨50, 0⟩ 1 = 130 / 200 ∧
      calcAttestationScore now (testAnnotations now) ⟨20, 100⟩ 1 = 40 / 100 ∧
      calcAttestationScore now (testAnnotations now) ⟨10, 50⟩ 1 = 0 ∧
      calcAttestationScore now (testAnnotations now) ⟨50, 180⟩ 1 = 110 / 180 ∧
      calcAttestationScore now (testAnnotations now) ⟨50, 50⟩ 1 = 40 / 50 :=
  ⟨test_scenario_full_range now, test_scenario_last_100 now, test_scenario_last_50 now,
    test_scenario_before_start_1 now, test_scenario_before_start_2 now⟩

/-- The counter `passed` after the loop over the generic annotations. -/
theorem foldl_genericStep_passed (policy : DcfPolicy) (l : List Annotation) (st : ℚ × ℚ × Int) :
    (l.foldl (genericStep policy) st).2.2 =
      st.2.2 + ((l.filter fun a => a.IsSatisfied).length : Int) := by
  induction l generalizing st with
  | nil => simp
  | cons a rest ih =>
    rw [List.foldl_cons, ih]
    cases hs : a.IsSatisfied
    · simp [genericStep, hs]
    · simp [genericStep, hs]
      ring

/-- C10, as the code has it: `Passed` is the number of satisfied annotations of a kind other
than attestation, and `Count` is the number of all annotations handed in, those of the
attestation kind included. -/
theorem NewScore_passed_and_count (now : Int) (key : ULID) (dataRef : String)
    (annotations : List Annotation) (policy : DcfPolicy) :
    (NewScore now key dataRef annotations policy).Passed =
        ((annotations.filter fun a =>
          !decide (a.Kind = AnnotationAttestation) && a.IsSatisfied).length : Int) ∧
      (NewScore now key dataRef annotations policy).Count = (annotations.length : Int) := by
  refine ⟨?_, rfl⟩
  simp only [NewScore, foldl_genericStep_passed, List.filter_filter]
  simp [Bool.and_comm]

/-- C10 as stated fails: a lone attestation annotation is counted by `Count`, so `Count` is
not the number of annotations of another kind. -/
theorem NewScore_count_not_generic_only :
    ¬ ∀ (now : Int) (key : ULID) (dataRef : String) (annotations : List Annotation)
        (policy : DcfPolicy),
      (NewScore now key dataRef annotations policy).Passed =
          ((annotations.filter fun a =>
            !decide (a.Kind = AnnotationAttestation) && a.IsSatisfied).length : Int) ∧
        (NewScore now key dataRef annotations policy).Count =
          ((annotations.filter fun a =>
            !decide (a.Kind = AnnotationAttestation)).length : Int) := by
  intro h
  have h1 := (h 0 0 "data" [attestationAt "a" 0 20] (bareP 50 10)).2
  revert h1
  simp [NewScore, attestationAt]

/-- `math.Round` leaves a non-negative whole number as it is. -/
theorem Round_intCast (n : Int) (h : 0 ≤ n) : Round (n : ℚ) = n := by
  have h0 : (0 : ℚ) ≤ (n : ℚ) := by exact_mod_cast h
  have hfloor : ⌊(n : ℚ) + 1 / 2⌋ = n := by
    rw [Int.floor_eq_iff]
    constructor <;> linarith
  unfold Round
  rw [if_pos h0, hfloor]

/-- The attestation score of one attestation made 20 minutes ago, under cadence 50 and a
range of 10 minutes: the seed `50 - 10` over a span of 10 minutes. -/
theorem calcAttestationScore_seed_over_span (now : Int) :
    calcAttestationScore now [attestationAt "a" now 20] ⟨50, 10⟩ 1 = 4 := by
  have hf : filterAnnotations now [attestationAt "a" now 20] ⟨50, 10⟩
      = [attestationAt "a" now 20] := by
    simp [filterAnnotations, attestationAt, ago_of_neg_mul, ago_ago, ago_lt_ago]
  have hs : sortSlice (sortLess [attestationAt "a" now 20] ⟨50, 10⟩)
      [attestationAt "a" now 20] = [attestationAt "a" now 20] := by
    simp [sortSlice, List.range']
  rw [calcAttestationScore_eq_of now _ _ _ _ _ _ hf (by simp) hs rfl]
  simp [attestationAt, walkStep, zeroAnnotation, ago_of_neg_mul, ago_ago, ago_lt_ago,
    Minutes_ago_sub_ago, Minutes_sub_ago]
  norm_num

/-- C1, the code at a failing input: one attestation annotation made 20 minutes before
`now`, scored under a policy with no weights, cadence 50 and range 10. The total weight is
1, not zero, and the confidence returned is 4, outside [0,1]. -/
theorem NewScore_confidence_above_one (now : Int) (key : ULID) (dataRef : String) :
    NewScore_totalWeight [attestationAt "a" now 20] (bareP 50 10) = 1 ∧
      (NewScore now key dataRef [attestationAt "a" now 20] (bareP 50 10)).Confidence = 4 := by
  have hk : (attestationAt "a" now 20).Kind = AnnotationAttestation := rfl
  have hw : (bareP 50 10).FetchWeight AnnotationAttestation
      = { AnnotationKey := AnnotationAttestation, Value := 1 } := by
    simp [bareP, DcfPolicy.FetchWeight, fetchLoop]
  constructor
  · simp [NewScore_totalWeight, hk, hw]
  · have hc := calcAttestationScore_seed_over_span now
    have hr : Round (400 : ℚ) = 400 := by exact_mod_cast Round_intCast 400 (by norm_num)
    simp only [NewScore, hk, hw, decide_True, List.filter_cons_of_pos, List.filter_nil,
      Bool.not_true, List.filter_cons_of_neg, Bool.false_eq_true, not_false_eq_true,
      List.foldl_nil]
    have hopts : (bareP 50 10).AttestationOptions = ⟨50, 10⟩ := rfl
    rw [hopts, hc]
    norm_num [hr]

/-- C3, the code at a failing input (cadence 5, range 100, weight 1). Two attestations, 10
and 30 minutes old in that order, score 1/10. With a third, 20 minutes old and so inside
the gap between them, appended to the slice, `sort.Slice` leaves the slice in the order
30, 10, 20 and the score drops to 0. -/
theorem calcAttestationScore_drops_when_gap_filled (now : Int) :
    calcAttestationScore now [attestationAt "a" now 10, attestationAt "b" now 30] ⟨5, 100⟩ 1
        = 1 / 10 ∧
      sortSlice
          (sortLess [attestationAt "a" now 10, attestationAt "b" now 30,
            attestationAt "c" now 20] ⟨5, 100⟩)
          [attestationAt "a" now 10, attestationAt "b" now 30, attestationAt "c" now 20]
        = [attestationAt "b" now 30, attestationAt "a" now 10, attestationAt "c" now 20] ∧
      calcAttestationScore now
          [attestationAt "a" now 10, attestationAt "b" now 30, attestationAt "c" now 20]
          ⟨5, 100⟩ 1 = 0 := by
  have hs3 : sortSlice
      (sortLess [attestationAt "a" now 10, attestationAt "b" now 30,
        attestationAt "c" now 20] ⟨5, 100⟩)
      [attestationAt "a" now 10, attestationAt "b" now 30, attestationAt "c" now 20]
      = [attestationAt "b" now 30, attestationAt "a" now 10, attestationAt "c" now 20] := by
    simp [sortSlice, sortLess, insertionInner, swapAt, attestationAt, List.range', ago_lt_ago]
  refine ⟨?_, hs3, ?_⟩
  · have hf : filterAnnotations now [attestationAt "a" now 10, attestationAt "b" now 30]
        ⟨5, 100⟩ = [attestationAt "a" now 10, attestationAt "b" now 30] := by
      simp [filterAnnotations, attestationAt, ago_of_neg_mul, ago_ago, ago_lt_ago]
    have hs : sortSlice
        (sortLess [attestationAt "a" now 10, attestationAt "b" now 30] ⟨5, 100⟩)
        [attestationAt "a" now 10, attestationAt "b" now 30]
        = [attestationAt "b" now 30, attestationAt "a" now 10] := by
      simp [sortSlice, sortLess, insertionInner, swapAt, attestationAt, List.range', ago_lt_ago]
    rw [calcAttestationScore_eq_of now _ _ _ _ _ _ hf (by simp) hs rfl]
    simp [attestationAt, walkStep, zeroAnnotation, AnnotationAttestation, ago_of_neg_mul,
      ago_ago, ago_lt_ago, Minutes_ago_sub_ago, Minutes_sub_ago]
    norm_num
  · have hf : filterAnnotations now
        [attestationAt "a" now 10, attestationAt "b" now 30, attestationAt "c" now 20]
        ⟨5, 100⟩
        = [attestationAt "a" now 10, attestationAt "b" now 30, attestationAt "c" now 20] := by
      simp [filterAnnotations, attestationAt, ago_of_neg_mul, ago_ago, ago_lt_ago]
    rw [calcAttestationScore_eq_of now _ _ _ _ _ _ hf (by simp) hs3 rfl]
    simp [attestationAt, walkStep, zeroAnnotation, AnnotationAttestation, ago_of_neg_mul,
      ago_ago, ago_lt_ago, Minutes_ago_sub_ago, Minutes_sub_ago]
    norm_num

/-- C4, the code at a failing input (cadence 5, range 100, weight 1, so the bound is 105
minutes before `now`). Two slices hold the same annotations after the bound, 10 and 30
minutes old in that order; the second also holds, in front, one that is 1000 minutes old.
The filter keeps the same two in both, yet the scores are 1/10 and -3/20. -/
theorem calcAttestationScore_reads_dropped (now : Int) :
    filterAnnotations now [attestationAt "a" now 10, attestationAt "b" now 30] ⟨5, 100⟩
        = [attestationAt "a" now 10, attestationAt "b" now 30] ∧
      filterAnnotations now
          [attestationAt "old" now 1000, attestationAt "a" now 10, attestationAt "b" now 30]
          ⟨5, 100⟩ = [attestationAt "a" now 10, attestationAt "b" now 30] ∧
      calcAttestationScore now [attestationAt "a" now 10, attestationAt "b" now 30] ⟨5, 100⟩ 1
        = 1 / 10 ∧
      calcAttestationScore now
          [attestationAt "old" now 1000, attestationAt "a" now 10, attestationAt "b" now 30]
          ⟨5, 100⟩ 1 = -3 / 20 := by
  have hf : filterAnnotations now [attestationAt "a" now 10, attestationAt "b" now 30]
      ⟨5, 100⟩ = [attestationAt "a" now 10, attestationAt "b" now 30] := by
    simp [filterAnnotations, attestationAt, ago_of_neg_mul, ago_ago, ago_lt_ago]
  have hf2 : filterAnnotations now
      [attestationAt "old" now 1000, attestationAt "a" now 10, attestationAt "b" now 30]
      ⟨5, 100⟩ = [attestationAt "a" now 10, attestationAt "b" now 30] := by
    simp [filterAnnotations, attestationAt, ago_of_neg_mul, ago_ago, ago_lt_ago]
  refine ⟨hf, hf2, ?_, ?_⟩
  · have hs : sortSlice
        (sortLess [attestationAt "a" now 10, attestationAt "b" now 30] ⟨5, 100⟩)
        [attestationAt "a" now 10, attestationAt "b" now 30]
        = [attestationAt "b" now 30, attestationAt "a" now 10] := by
      simp [sortSlice, sortLess, insertionInner, swapAt, attestationAt, List.range', ago_lt_ago]
    rw [calcAttestationScore_eq_of now _ _ _ _ _ _ hf (by simp) hs rfl]
    simp [attestationAt, walkStep, zeroAnnotation, AnnotationAttestation, ago_of_neg_mul,
      ago_ago, ago_lt_ago, Minutes_ago_sub_ago, Minutes_sub_ago]
    norm_num
  · have hs : sortSlice
        (sortLess [attestationAt "old" now 1000, attestationAt "a" now 10,
          attestationAt "b" now 30] ⟨5, 100⟩)
        [attestationAt "a" now 10, attestationAt "b" now 30]
        = [attestationAt "a" now 10, attestationAt "b" now 30] := by
      simp [sortSlice, sortLess, insertionInner, swapAt, attestationAt, List.range', ago_lt_ago]
    rw [calcAttestationScore_eq_of now _ _ _ _ _ _ hf2 (by simp) hs rfl]
    simp [attestationAt, walkStep, zeroAnnotation, AnnotationAttestation, ago_of_neg_mul,
      ago_ago, ago_lt_ago, Minutes_ago_sub_ago, Minutes_sub_ago]
    norm_num

end documents

/-! ## The sort of the unbounded case -/

namespace documents

open policies

/-- Exchanging two neighbours of a slice. -/
theorem swapAt_adjacent {α : Type} (pre : List α) (a b : α) (post : List α) :
    swapAt (pre ++ a :: b :: post) (pre.length + 1) pre.length = pre ++ b :: a :: post := by
  have h1 : (pre ++ a :: b :: post)[pre.length + 1]? = some b := by
    rw [List.getElem?_append_right (by omega)]
    simp
  have h2 : (pre ++ a :: b :: post)[pre.length]? = some a := by
    rw [List.getElem?_append_right (by omega)]
    simp
  simp only [swapAt, h1, h2]
  rw [List.set_append_right _ _ (by omega), List.set_append_right _ _ (by simp)]
  simp

/-- With `TimeRangeMins == 0` the comparison reads the slice being sorted. -/
theorem sortLess_unbounded (attest : List Annotation) (opts : AttestationOptions)
    (h0 : opts.TimeRangeMins = 0) (cur : List Annotation) (i j : Nat) :
    sortLess attest opts cur i j =
      decide ((cur.getD i zeroAnnotation).Timestamp < (cur.getD j zeroAnnotation).Timestamp) := by
  simp [sortLess, h0]

/-- With `TimeRangeMins == 0`, the inner loop entered at the end of a prefix inserts the next
element into that prefix. -/
theorem insertionInner_unbounded (attest : List Annotation) (opts : AttestationOptions)
    (h0 : opts.TimeRangeMins = 0) :
    ∀ (n : Nat) (pre : List Annotation) (x : Annotation) (post : List Annotation),
      pre.length = n →
      insertionInner (sortLess attest opts) n (pre ++ x :: post) =
        (insertRev x pre.reverse).reverse ++ post := by
  intro n
  induction n with
  | zero =>
    intro pre x post hlen
    have : pre = [] := List.length_eq_zero.mp hlen
    subst this
    simp [insertionInner, insertRev]
  | succ n ih =>
    intro pre x post hlen
    rcases List.eq_nil_or_concat pre with hnil | ⟨init, p, hpre⟩
    · subst hnil; simp at hlen
    · rw [List.concat_eq_append] at hpre
      subst hpre
      have hinit : init.length = n := by simpa using hlen
      subst hinit
      have hx : (init ++ [p] ++ x :: post).getD (init.length + 1) zeroAnnotation = x := by
        rw [List.getD_eq_getElem?_getD, List.getElem?_append_right (by simp)]
        simp
      have hp : (init ++ [p] ++ x :: post).getD init.length zeroAnnotation = p := by
        rw [List.append_assoc, List.getD_eq_getElem?_getD,
          List.getElem?_append_right (by simp)]
        simp
      rw [insertionInner, sortLess_unbounded attest opts h0, hx, hp]
      by_cases hlt : x.Timestamp < p.Timestamp
      · have hswap : swapAt (init ++ [p] ++ x :: post) (init.length + 1) init.length
            = init ++ x :: (p :: post) := by
          have := swapAt_adjacent init p x post
          simpa using this
        simp only [hlt, decide_True, if_true, hswap]
        rw [ih init x (p :: post) rfl]
        simp [insertRev, hlt]
      · simp [hlt, insertRev]

/-- With `TimeRangeMins == 0`, the outer loop from index `pre.length` on inserts the
remaining elements one after the other. -/
theorem sortLoop_unbounded (attest : List Annotation) (opts : AttestationOptions)
    (h0 : opts.TimeRangeMins = 0) :
    ∀ (rest pre : List Annotation),
      (List.range' pre.length rest.length).foldl
          (fun d i => insertionInner (sortLess attest opts) i d) (pre ++ rest) =
        (rest.foldl (fun acc x => insertRev x acc) pre.reverse).reverse := by
  intro rest
  induction rest with
  | nil => intro pre; simp [List.range']
  | cons x rest ih =>
    intro pre
    have hlen : ((insertRev x pre.reverse).reverse).length = pre.length + 1 := by
      have : ∀ l : List Annotation, (insertRev x l).length = l.length + 1 := by
        intro l
        induction l with
        | nil => simp [insertRev]
        | cons p ps ihp =>
          by_cases hlt : x.Timestamp < p.Timestamp <;> simp [insertRev, hlt, ihp]
      simp [this]
    simp only [List.length_cons, List.range', List.foldl_cons]
    rw [insertionInner_unbounded attest opts h0 pre.length pre x rest rfl]
    have := ih ((insertRev x pre.reverse).reverse)
    rw [hlen] at this
    rw [this]
    simp

/-- With `TimeRangeMins == 0`, `sort.Slice` is the insertion sort by timestamp. -/
theorem sortSlice_unbounded (attest : List Annotation) (opts : AttestationOptions)
    (h0 : opts.TimeRangeMins = 0) (data : List Annotation) :
    sortSlice (sortLess attest opts) data =
      (data.foldl (fun acc x => insertRev x acc) []).reverse := by
  cases data with
  | nil => simp [sortSlice, List.range']
  | cons a rest =>
    have := sortLoop_unbounded attest opts h0 rest [a]
    simpa [sortSlice, insertRev] using this

theorem insertRev_perm (x : Annotation) (l : List Annotation) :
    (insertRev x l).Perm (x :: l) := by
  induction l with
  | nil => simp [insertRev]
  | cons p ps ih =>
    by_cases hlt : x.Timestamp < p.Timestamp
    · simp only [insertRev, hlt, if_true]
      exact (List.Perm.cons p ih).trans (List.Perm.swap x p ps)
    · simp [insertRev, hlt]

theorem insertRev_sorted (x : Annotation) (l : List Annotation)
    (h : l.Pairwise fun a b => b.Timestamp ≤ a.Timestamp) :
    (insertRev x l).Pairwise fun a b => b.Timestamp ≤ a.Timestamp := by
  induction l with
  | nil => simp [insertRev]
  | cons p ps ih =>
    rw [List.pairwise_cons] at h
    by_cases hlt : x.Timestamp < p.Timestamp
    · simp only [insertRev, hlt, if_true, List.pairwise_cons]
      refine ⟨?_, ih h.2⟩
      intro b hb
      have hb2 : b = x ∨ b ∈ ps := by
        simpa using (List.Perm.mem_iff (insertRev_perm x ps)).mp hb
      rcases hb2 with rfl | hb2
      · omega
      · exact h.1 b hb2
    · simp only [insertRev, hlt, if_false, List.pairwise_cons]
      refine ⟨?_, h.1, h.2⟩
      intro b hb
      simp at hb
      rcases hb with rfl | hb
      · omega
      · have := h.1 b hb
        omega

theorem foldl_insertRev (data acc : List Annotation)
    (h : acc.Pairwise fun a b => b.Timestamp ≤ a.Timestamp) :
    (data.foldl (fun acc x => insertRev x acc) acc).Perm (data ++ acc) ∧
      (data.foldl (fun acc x => insertRev x acc) acc).Pairwise
        fun a b => b.Timestamp ≤ a.Timestamp := by
  induction data generalizing acc with
  | nil => simpa using h
  | cons x rest ih =>
    obtain ⟨hp, hs⟩ := ih (insertRev x acc) (insertRev_sorted x acc h)
    refine ⟨?_, hs⟩
    simp only [List.foldl_cons]
    refine hp.trans ?_
    refine ((List.Perm.append_left rest (insertRev_perm x acc))).trans ?_
    simp

/-- With `TimeRangeMins == 0`, what `sort.Slice` leaves is the input rearranged, no
timestamp after the next. -/
theorem sortSlice_unbounded_perm_sorted (attest : List Annotation) (opts : AttestationOptions)
    (h0 : opts.TimeRangeMins = 0) (data : List Annotation) :
    (sortSlice (sortLess attest opts) data).Perm data ∧
      (sortSlice (sortLess attest opts) data).Pairwise
        fun a b => a.Timestamp ≤ b.Timestamp := by
  rw [sortSlice_unbounded attest opts h0]
  obtain ⟨hp, hs⟩ := foldl_insertRev data [] List.Pairwise.nil
  refine ⟨(List.reverse_perm _).trans (by simpa using hp), ?_⟩
  rw [List.pairwise_reverse]
  exact hs

end documents

/-! ## Policies: the weight found, and the errors of the options decoder -/

namespace policies

/-- A scan returns the first item whose key matches, whatever it started from. -/
theorem fetchLoop_of_find (key : String) (w0 : Weight) (ws : List Weight) (w : Weight)
    (h : ws.find? (fun item => decide (item.AnnotationKey = key)) = some w) :
    fetchLoop key w0 ws = w := by
  induction ws with
  | nil => simp at h
  | cons item rest ih =>
    by_cases hk : item.AnnotationKey = key
    · have hw : item = w := by simpa [List.find?, hk] using h
      subst hw
      simp [fetchLoop, hk]
    · have hrest : rest.find? (fun item => decide (item.AnnotationKey = key)) = some w := by
        simpa [List.find?, hk] using h
      simp [fetchLoop, hk, ih hrest]

/-- C14: when `w` is the first weight of `P.Weights` whose key is `k`, `P.FetchWeight k` is
`w` itself, key and value unchanged, if `w.Value` is not 0, and is the weight of key `k`
and value 1 if `w.Value` is 0. -/
theorem FetchWeight_of_present (P : DcfPolicy) (k : String) (w : Weight)
    (h : P.Weights.find? (fun item => decide (item.AnnotationKey = k)) = some w) :
    (w.Value ≠ 0 → P.FetchWeight k = w) ∧
      (w.Value = 0 → P.FetchWeight k = { AnnotationKey := k, Value := 1 }) := by
  have hloop := fetchLoop_of_find k { AnnotationKey := "", Value := 0 } P.Weights w h
  constructor
  · intro hv
    simp [DcfPolicy.FetchWeight, hloop, hv]
  · intro hv
    simp [DcfPolicy.FetchWeight, hloop, hv]

/-- C14 at a policy whose weights are `tpm` 5, `tls` 0 and `tpm` 7, in that order: `tpm`
is answered by the first of its two weights, `tls` by the fallback value 1. -/
theorem FetchWeight_of_present_witness :
    DcfPolicy.FetchWeight
        { Name := "p",
          Weights := [{ AnnotationKey := "tpm", Value := 5 }, { AnnotationKey := "tls", Value := 0 },
            { AnnotationKey := "tpm", Value := 7 }],
          AttestationOptions := { CadenceThresholdMins := 50, TimeRangeMins := 0 } } "tpm"
        = { AnnotationKey := "tpm", Value := 5 } ∧
      DcfPolicy.FetchWeight
        { Name := "p",
          Weights := [{ AnnotationKey := "tpm", Value := 5 }, { AnnotationKey := "tls", Value := 0 },
            { AnnotationKey := "tpm", Value := 7 }],
          AttestationOptions := { CadenceThresholdMins := 50, TimeRangeMins := 0 } } "tls"
        = { AnnotationKey := "tls", Value := 1 } :=
  ⟨(FetchWeight_of_present _ "tpm" { AnnotationKey := "tpm", Value := 5 } (by decide)).1
      (by decide),
   (FetchWeight_of_present _ "tls" { AnnotationKey := "tls", Value := 0 } (by decide)).2
      (by decide)⟩

/-- C15: decoding attestation options from the raw integers `cadence` and `timeRange`
returns the cadence error whenever `cadence ≤ 0`, whatever `timeRange` is; it returns the
time-range error exactly when `cadence > 0` and `timeRange < 0`; and the two errors are
not the same. -/
theorem AttestationOptions_UnmarshalJSON_errors (opts : AttestationOptions)
    (r : AttestationRecord) :
    (r.cadenceThresholdMins.getD 0 ≤ 0 →
        (AttestationOptions.UnmarshalJSON opts (.ok r)).2 =
          some "CadenceThresholdMins must be a positive integer") ∧
      ((AttestationOptions.UnmarshalJSON opts (.ok r)).2 =
          some "CycleRange must be 0 or a positive integer" ↔
        (0 < r.cadenceThresholdMins.getD 0 ∧ r.timeRange.getD 0 < 0)) ∧
      "CadenceThresholdMins must be a positive integer" ≠
        "CycleRange must be 0 or a positive integer" := by
  simp only [AttestationOptions.UnmarshalJSON, AttestationRecord.toAlias]
  refine ⟨?_, ?_, by decide⟩
  · intro h
    simp [h]
  · split_ifs with h1 h2
    · constructor
      · intro h; exact absurd (Option.some.inj h) (by decide)
      · intro h; omega
    · constructor
      · intro _; constructor <;> omega
      · intro _; rfl
    · constructor
      · intro h; cases h
      · intro h; omega

/-- C15 at the raw pairs (-1, -1) and (50, -1): the first gets the cadence error although
its range is negative too, the second the time-range error. -/
theorem AttestationOptions_UnmarshalJSON_errors_witness :
    (AttestationOptions.UnmarshalJSON { CadenceThresholdMins := 0, TimeRangeMins := 0 }
        (.ok { cadenceThresholdMins := some (-1), timeRange := some (-1) })).2 =
          some "CadenceThresholdMins must be a positive integer" ∧
      (AttestationOptions.UnmarshalJSON { CadenceThresholdMins := 0, TimeRangeMins := 0 }
        (.ok { cadenceThresholdMins := some 50, timeRange := some (-1) })).2 =
          some "CycleRange must be 0 or a positive integer" :=
  ⟨(AttestationOptions_UnmarshalJSON_errors _ _).1 (by decide),
   (AttestationOptions_UnmarshalJSON_errors _ _).2.1.2 (by decide)⟩

/-- C20: when validation fails (`cadence ≤ 0` or `timeRange < 0`), the receiver is after
the call exactly what it was before it. -/
theorem AttestationOptions_UnmarshalJSON_atomic (opts : AttestationOptions)
    (r : AttestationRecord)
    (h : r.cadenceThresholdMins.getD 0 ≤ 0 ∨ r.timeRange.getD 0 < 0) :
    (AttestationOptions.UnmarshalJSON opts (.ok r)).1 = opts := by
  simp only [AttestationOptions.UnmarshalJSON, AttestationRecord.toAlias]
  split_ifs with h1 h2
  · rfl
  · rfl
  · omega

/-- C20 at a receiver holding (50, 2) and the raw pair (30, -1): the receiver keeps (50, 2);
the 30 is not written. -/
theorem AttestationOptions_UnmarshalJSON_atomic_witness :
    ((some 30 : Option Int).getD 0 ≤ 0 ∨ (some (-1) : Option Int).getD 0 < 0) ∧
      (AttestationOptions.UnmarshalJSON { CadenceThresholdMins := 50, TimeRangeMins := 2 }
        (.ok { cadenceThresholdMins := some 30, timeRange := some (-1) })).1 =
          { CadenceThresholdMins := 50, TimeRangeMins := 2 } :=
  ⟨by decide,
   AttestationOptions_UnmarshalJSON_atomic _
    { cadenceThresholdMins := some 30, timeRange := some (-1) } (by decide)⟩

end policies

/-! ## The walk and the weighted total -/

namespace policies

/-- A scan returns the weight it started from or a weight of the list. -/
theorem fetchLoop_eq_or_mem (key : String) (w0 : Weight) (ws : List Weight) :
    fetchLoop key w0 ws = w0 ∨ fetchLoop key w0 ws ∈ ws := by
  induction ws with
  | nil => exact Or.inl rfl
  | cons item rest ih =>
    by_cases hk : item.AnnotationKey = key
    · right; simp [fetchLoop, hk]
    · rcases ih with h | h
      · left; simp [fetchLoop, hk, h]
      · right; simp [fetchLoop, hk, h]

/-- Under a policy whose weights are all positive, every kind is weighed positively. -/
theorem FetchWeight_value_pos (P : DcfPolicy) (k : String)
    (h : ∀ w ∈ P.Weights, 0 < w.Value) : 0 < (P.FetchWeight k).Value := by
  unfold DcfPolicy.FetchWeight
  by_cases hv : (fetchLoop k { AnnotationKey := "", Value := 0 } P.Weights).Value = 0
  · simp [hv]
  · simp only [hv, if_false]
    rcases fetchLoop_eq_or_mem k { AnnotationKey := "", Value := 0 } P.Weights with h0 | hmem
    · rw [h0] at hv; exact absurd rfl hv
    · exact h _ hmem

end policies

namespace documents

open policies

/-- C12, the code at a failing input (cadence 5, range 100): of the input slice holding
annotations 1000, 10 and 30 minutes old in that order, the filter drops the first, and the
slice that is walked holds the other two in the order 10 minutes old, 30 minutes old: the
later timestamp first, not ascending. -/
theorem walkedAnnotations_not_ascending (now : Int) :
    walkedAnnotations now
        [attestationAt "old" now 1000, attestationAt "a" now 10, attestationAt "b" now 30]
        ⟨5, 100⟩ = [attestationAt "a" now 10, attestationAt "b" now 30] ∧
      (attestationAt "b" now 30).Timestamp < (attestationAt "a" now 10).Timestamp ∧
      ¬ (walkedAnnotations now
        [attestationAt "old" now 1000, attestationAt "a" now 10, attestationAt "b" now 30]
        ⟨5, 100⟩).Pairwise fun x y => x.Timestamp ≤ y.Timestamp := by
  have hf : filterAnnotations now
      [attestationAt "old" now 1000, attestationAt "a" now 10, attestationAt "b" now 30]
      ⟨5, 100⟩ = [attestationAt "a" now 10, attestationAt "b" now 30] := by
    simp [filterAnnotations, attestationAt, ago_of_neg_mul, ago_ago, ago_lt_ago]
  have hw : walkedAnnotations now
      [attestationAt "old" now 1000, attestationAt "a" now 10, attestationAt "b" now 30]
      ⟨5, 100⟩ = [attestationAt "a" now 10, attestationAt "b" now 30] := by
    rw [walkedAnnotations, hf]
    simp [sortSlice, sortLess, insertionInner, swapAt, attestationAt, List.range', ago_lt_ago]
  have hlt : (attestationAt "b" now 30).Timestamp < (attestationAt "a" now 10).Timestamp := by
    simp [attestationAt, ago_lt_ago]
  refine ⟨hw, hlt, ?_⟩
  rw [hw]
  intro hp
  have := List.rel_of_pairwise_cons hp (List.mem_singleton_self _)
  omega

/-- The loop of `calcAttestationScore` ranges over `walkedAnnotations`. -/
theorem calcAttestationScore_walks (now : Int) (attest : List Annotation)
    (opts : AttestationOptions) (weight : Int)
    (hne : filterAnnotations now attest opts ≠ []) :
    calcAttestationScore now attest opts weight =
      (if ((walkedAnnotations now attest opts).foldl
            (walkStep opts (if opts.TimeRangeMins = 0
              then ((walkedAnnotations now attest opts).headD zeroAnnotation).Timestamp
              else now + -Minute * opts.TimeRangeMins)) (0, zeroAnnotation)).2 ≠ zeroAnnotation
        then
          ((walkedAnnotations now attest opts).foldl
            (walkStep opts (if opts.TimeRangeMins = 0
              then ((walkedAnnotations now attest opts).headD zeroAnnotation).Timestamp
              else now + -Minute * opts.TimeRangeMins)) (0, zeroAnnotation)).1 +
            min (Minutes (now - ((walkedAnnotations now attest opts).foldl
              (walkStep opts (if opts.TimeRangeMins = 0
                then ((walkedAnnotations now attest opts).headD zeroAnnotation).Timestamp
                else now + -Minute * opts.TimeRangeMins)) (0, zeroAnnotation)).2.Timestamp))
              (opts.CadenceThresholdMins : ℚ)
        else
          ((walkedAnnotations now attest opts).foldl
            (walkStep opts (if opts.TimeRangeMins = 0
              then ((walkedAnnotations now attest opts).headD zeroAnnotation).Timestamp
              else now + -Minute * opts.TimeRangeMins)) (0, zeroAnnotation)).1) /
        Minutes (now - (if opts.TimeRangeMins = 0
          then ((walkedAnnotations now attest opts).headD zeroAnnotation).Timestamp
          else now + -Minute * opts.TimeRangeMins)) * (weight : ℚ) :=
  calcAttestationScore_eq_of now attest opts weight _ _ _ rfl hne rfl rfl

/-- C13, as the code has it: an annotation strictly before the limit seeds the covered
minutes to the cadence less the minutes from it to the limit, and leaves the previous
annotation as it was; an annotation at the limit or after it is recorded as the previous
annotation, and the covered minutes are kept (no previous annotation yet) or grow by the
capped interval since the previous one. -/
theorem walkStep_seed_only_before (opts : AttestationOptions) (earliestAttestLimit : Int)
    (st : ℚ × Annotation) (a : Annotation) :
    (a.Timestamp < earliestAttestLimit →
        walkStep opts earliestAttestLimit st a =
          ((opts.CadenceThresholdMins : ℚ) - Minutes (earliestAttestLimit - a.Timestamp), st.2)) ∧
      (earliestAttestLimit ≤ a.Timestamp →
        (walkStep opts earliestAttestLimit st a).2 = a ∧
          (walkStep opts earliestAttestLimit st a).1 =
            if st.2 = zeroAnnotation then st.1
            else st.1 + min (Minutes (a.Timestamp - st.2.Timestamp))
              (opts.CadenceThresholdMins : ℚ)) := by
  constructor
  · intro h
    simp [walkStep, h]
  · intro h
    have hn : ¬ a.Timestamp < earliestAttestLimit := by omega
    by_cases hz : st.2 = zeroAnnotation <;> simp [walkStep, hn, hz]

/-- C13 as stated fails: with cadence 50 and the limit at the instant 0, an annotation made
at the instant 0 itself, met with no previous annotation, is recorded as the previous one
and seeds nothing. -/
theorem walkStep_at_limit_not_seed :
    ¬ ∀ (opts : AttestationOptions) (earliestAttestLimit : Int) (st : ℚ × Annotation)
        (a : Annotation), a.Timestamp ≤ earliestAttestLimit →
      walkStep opts earliestAttestLimit st a =
        ((opts.CadenceThresholdMins : ℚ) - Minutes (earliestAttestLimit - a.Timestamp), st.2) := by
  intro h
  have h1 := h ⟨50, 0⟩ 0 (0, zeroAnnotation) (attestationAt "a" 0 0) (by decide)
  have h2 : (walkStep ⟨50, 0⟩ 0 (0, zeroAnnotation) (attestationAt "a" 0 0)).2
      = attestationAt "a" 0 0 := by
    simp [walkStep, attestationAt, ago]
  rw [h1] at h2
  exact absurd h2 (by decide)

/-- C13 at the fourth scenario of the test with the clock at 0: the annotation 200 minutes
old lies 20 minutes before the limit and seeds 50 - 20 = 30 minutes. -/
theorem walkStep_seed_only_before_witness :
    walkStep ⟨50, 180⟩ (ago 0 180) (0, zeroAnnotation) (attestationAt "c" 0 200) =
      (((50 : Int) : ℚ) - Minutes (ago 0 180 - (attestationAt "c" 0 200).Timestamp),
        zeroAnnotation) :=
  (walkStep_seed_only_before ⟨50, 180⟩ (ago 0 180) (0, zeroAnnotation)
    (attestationAt "c" 0 200)).1 (by decide)

end documents

/-! ## The weighted total of `NewScore` -/

namespace documents

open policies

/-- The variable `totalWeight` after the loop over the generic annotations. -/
theorem foldl_genericStep_total (policy : DcfPolicy) (l : List Annotation) (st : ℚ × ℚ × Int) :
    (l.foldl (genericStep policy) st).1 =
      st.1 + (l.map fun a => ((policy.FetchWeight a.Kind).Value : ℚ)).sum := by
  induction l generalizing st with
  | nil => simp
  | cons a rest ih =>
    rw [List.foldl_cons, ih]
    cases hs : a.IsSatisfied <;> simp [genericStep, hs, add_assoc]

/-- The variable `passedWeight` after the loop over the generic annotations. -/
theorem foldl_genericStep_passedWeight (policy : DcfPolicy) (l : List Annotation)
    (st : ℚ × ℚ × Int) :
    (l.foldl (genericStep policy) st).2.1 =
      st.2.1 + ((l.filter fun a => a.IsSatisfied).map
        fun a => ((policy.FetchWeight a.Kind).Value : ℚ)).sum := by
  induction l generalizing st with
  | nil => simp
  | cons a rest ih =>
    rw [List.foldl_cons, ih]
    cases hs : a.IsSatisfied <;> simp [genericStep, hs, add_assoc]

/-- The confidence is the rounded quotient by `NewScore_totalWeight`. -/
theorem NewScore_confidence_eq (now : Int) (key : ULID) (dataRef : String)
    (annotations : List Annotation) (policy : DcfPolicy) :
    (NewScore now key dataRef annotations policy).Confidence =
      Round ((((annotations.filter fun a => !decide (a.Kind = AnnotationAttestation)).foldl
            (genericStep policy) (0, 0, 0)).2.1 +
          calcAttestationScore now
            (annotations.filter fun a => decide (a.Kind = AnnotationAttestation))
            policy.AttestationOptions (policy.FetchWeight AnnotationAttestation).Value) /
        NewScore_totalWeight annotations policy * 100) / 100 :=
  rfl

/-- In exact arithmetic: for every policy and every annotation list with no annotation of
the attestation kind, the confidence of `NewScore` is the rounding to two decimals of the sum of the weights
of the satisfied annotations over the sum of the weights of all annotations plus the weight
of the attestation kind. -/
theorem NewScore_confidence_without_attestation (now : Int) (key : ULID) (dataRef : String)
    (annotations : List Annotation) (policy : DcfPolicy)
    (h : ∀ a ∈ annotations, a.Kind ≠ AnnotationAttestation) :
    (NewScore now key dataRef annotations policy).Confidence =
      Round (((annotations.filter fun a => a.IsSatisfied).map
            fun a => ((policy.FetchWeight a.Kind).Value : ℚ)).sum /
          ((annotations.map fun a => ((policy.FetchWeight a.Kind).Value : ℚ)).sum +
            ((policy.FetchWeight AnnotationAttestation).Value : ℚ)) * 100) / 100 := by
  have hatt : (annotations.filter fun a => decide (a.Kind = AnnotationAttestation)) = [] := by
    rw [List.filter_eq_nil_iff]
    intro a ha
    simpa using h a ha
  have hgen : (annotations.filter fun a => !decide (a.Kind = AnnotationAttestation))
      = annotations := by
    rw [List.filter_eq_self]
    intro a ha
    simpa using h a ha
  have hcalc : calcAttestationScore now [] policy.AttestationOptions
      (policy.FetchWeight AnnotationAttestation).Value = 0 :=
    calcAttestationScore_of_filter_nil _ _ _ _ (by simp [filterAnnotations])
  rw [NewScore_confidence_eq, NewScore_totalWeight, hatt, hgen, hcalc,
    foldl_genericStep_passedWeight, foldl_genericStep_total]
  simp

/-- The exact confidence at a policy weighing `tpm` 5 and two annotations, `tpm` satisfied and `tls` not:
the confidence is 5 over 5 + 1 + 1, rounded to two decimals. -/
theorem NewScore_confidence_without_attestation_witness :
    (NewScore 0 0 "data"
        [{ Key := "1", DataRef := "data", Hash := "", Host := "", Kind := "tpm", Signature := "",
           IsSatisfied := true, Timestamp := 0 },
         { Key := "2", DataRef := "data", Hash := "", Host := "", Kind := "tls", Signature := "",
           IsSatisfied := false, Timestamp := 0 }]
        { Name := "p", Weights := [{ AnnotationKey := "tpm", Value := 5 }],
          AttestationOptions := { CadenceThresholdMins := 50, TimeRangeMins := 0 } }).Confidence =
      Round ((5 : ℚ) / (5 + 1 + 1) * 100) / 100 := by
  rw [NewScore_confidence_without_attestation 0 0 "data" _ _ (by decide)]
  simp [DcfPolicy.FetchWeight, fetchLoop, AnnotationAttestation]

/-- C18: under a policy whose weights all lie in [1,10], for every annotation list, the
weight of the attestation kind is at least 1 and the total weight that `NewScore` divides
by is at least that weight; so the divisor is not zero. -/
theorem NewScore_totalWeight_ge_attestation (annotations : List Annotation) (policy : DcfPolicy)
    (h : ∀ w ∈ policy.Weights, 1 ≤ w.Value ∧ w.Value ≤ 10) :
    1 ≤ (policy.FetchWeight AnnotationAttestation).Value ∧
      ((policy.FetchWeight AnnotationAttestation).Value : ℚ) ≤
        NewScore_totalWeight annotations policy ∧
      NewScore_totalWeight annotations policy ≠ 0 := by
  have hpos : ∀ w ∈ policy.Weights, 0 < w.Value := fun w hw => by
    have := (h w hw).1
    omega
  have hatt : 1 ≤ (policy.FetchWeight AnnotationAttestation).Value := by
    have := FetchWeight_value_pos policy AnnotationAttestation hpos
    omega
  have hsum : ∀ l : List Annotation,
      (0 : ℚ) ≤ (l.map fun a => ((policy.FetchWeight a.Kind).Value : ℚ)).sum := by
    intro l
    apply List.sum_nonneg
    intro x hx
    obtain ⟨a, _, rfl⟩ := List.mem_map.mp hx
    have := FetchWeight_value_pos policy a.Kind hpos
    exact_mod_cast this.le
  have hge : ((policy.FetchWeight AnnotationAttestation).Value : ℚ) ≤
      NewScore_totalWeight annotations policy := by
    rw [NewScore_totalWeight, foldl_genericStep_total]
    have := hsum (annotations.filter fun a => !decide (a.Kind = AnnotationAttestation))
    simp only [zero_add]
    linarith
  have hatt' : (1 : ℚ) ≤ ((policy.FetchWeight AnnotationAttestation).Value : ℚ) := by
    exact_mod_cast hatt
  exact ⟨hatt, hge, by linarith⟩

/-- C18 at a policy weighing `tpm` 5 and `attestation` 3 and one satisfied `tpm`
annotation: the divisor, 5 + 3, is not zero. -/
theorem NewScore_totalWeight_ge_attestation_witness :
    NewScore_totalWeight
        [{ Key := "1", DataRef := "data", Hash := "", Host := "", Kind := "tpm", Signature := "",
           IsSatisfied := true, Timestamp := 0 }]
        { Name := "p",
          Weights := [{ AnnotationKey := "tpm", Value := 5 },
            { AnnotationKey := "attestation", Value := 3 }],
          AttestationOptions := { CadenceThresholdMins := 50, TimeRangeMins := 0 } } ≠ 0 :=
  (NewScore_totalWeight_ge_attestation _ _ (by decide)).2.2

/-- `math.Round` is monotone. -/
theorem Round_mono {x y : ℚ} (h : x ≤ y) : Round x ≤ Round y := by
  unfold Round
  by_cases hx : 0 ≤ x
  · have hy : 0 ≤ y := le_trans hx h
    rw [if_pos hx, if_pos hy]
    exact_mod_cast Int.floor_mono (by linarith : x + 1 / 2 ≤ y + 1 / 2)
  · by_cases hy : 0 ≤ y
    · rw [if_neg hx, if_pos hy]
      have h1 : (0 : ℤ) ≤ ⌊-x + 1 / 2⌋ := Int.floor_nonneg.mpr (by linarith)
      have h2 : (0 : ℤ) ≤ ⌊y + 1 / 2⌋ := Int.floor_nonneg.mpr (by linarith)
      have h1' : (0 : ℚ) ≤ (⌊-x + 1 / 2⌋ : ℚ) := by exact_mod_cast h1
      have h2' : (0 : ℚ) ≤ (⌊y + 1 / 2⌋ : ℚ) := by exact_mod_cast h2
      linarith
    · rw [if_neg hx, if_neg hy]
      have : ⌊-y + 1 / 2⌋ ≤ ⌊-x + 1 / 2⌋ :=
        Int.floor_mono (by linarith : -y + 1 / 2 ≤ -x + 1 / 2)
      have h' : ((⌊-y + 1 / 2⌋ : ℤ) : ℚ) ≤ ((⌊-x + 1 / 2⌋ : ℤ) : ℚ) := by exact_mod_cast this
      linarith

/-- C19: under a policy whose weights are all positive, with the clock fixed, turning one
annotation of a kind other than attestation from not satisfied to satisfied, all else
equal, does not lower the confidence of `NewScore`. -/
theorem NewScore_confidence_mono_satisfied (now : Int) (key : ULID) (dataRef : String)
    (pre post : List Annotation) (a : Annotation) (policy : DcfPolicy)
    (hpos : ∀ w ∈ policy.Weights, 0 < w.Value)
    (hkind : a.Kind ≠ AnnotationAttestation) (hsat : a.IsSatisfied = false) :
    (NewScore now key dataRef (pre ++ a :: post) policy).Confidence ≤
      (NewScore now key dataRef (pre ++ { a with IsSatisfied := true } :: post)
        policy).Confidence := by
  have hwa : (0 : ℚ) < ((policy.FetchWeight a.Kind).Value : ℚ) := by
    exact_mod_cast FetchWeight_value_pos policy a.Kind hpos
  have hsum : ∀ l : List Annotation,
      (0 : ℚ) ≤ (l.map fun a => ((policy.FetchWeight a.Kind).Value : ℚ)).sum := by
    intro l
    apply List.sum_nonneg
    intro x hx
    obtain ⟨b, _, rfl⟩ := List.mem_map.mp hx
    have := FetchWeight_value_pos policy b.Kind hpos
    exact_mod_cast this.le
  have hatt : (0 : ℚ) < ((policy.FetchWeight AnnotationAttestation).Value : ℚ) := by
    exact_mod_cast FetchWeight_value_pos policy AnnotationAttestation hpos
  have hg : ((pre ++ a :: post).filter fun a => !decide (a.Kind = AnnotationAttestation))
      = (pre.filter fun a => !decide (a.Kind = AnnotationAttestation)) ++
        a :: post.filter fun a => !decide (a.Kind = AnnotationAttestation) := by
    simp [List.filter_append, List.filter_cons, hkind]
  have hg' : ((pre ++ { a with IsSatisfied := true } :: post).filter
        fun a => !decide (a.Kind = AnnotationAttestation))
      = (pre.filter fun a => !decide (a.Kind = AnnotationAttestation)) ++
        { a with IsSatisfied := true } ::
          post.filter fun a => !decide (a.Kind = AnnotationAttestation) := by
    simp [List.filter_append, List.filter_cons, hkind]
  have htotal : NewScore_totalWeight (pre ++ { a with IsSatisfied := true } :: post) policy
      = NewScore_totalWeight (pre ++ a :: post) policy := by
    simp only [NewScore_totalWeight, hg, hg', foldl_genericStep_total]
    simp
  have htpos : 0 < NewScore_totalWeight (pre ++ a :: post) policy := by
    rw [NewScore_totalWeight, foldl_genericStep_total]
    have := hsum ((pre ++ a :: post).filter fun a => !decide (a.Kind = AnnotationAttestation))
    simp only [zero_add]
    linarith
  rw [NewScore_confidence_eq, NewScore_confidence_eq, htotal]
  have hattest : ((pre ++ { a with IsSatisfied := true } :: post).filter
        fun a => decide (a.Kind = AnnotationAttestation))
      = (pre ++ a :: post).filter fun a => decide (a.Kind = AnnotationAttestation) := by
    simp [List.filter_append, List.filter_cons, hkind]
  rw [hattest]
  have hpassed : (((pre ++ { a with IsSatisfied := true } :: post).filter
          fun a => !decide (a.Kind = AnnotationAttestation)).foldl
        (genericStep policy) (0, 0, 0)).2.1
      = (((pre ++ a :: post).filter fun a => !decide (a.Kind = AnnotationAttestation)).foldl
        (genericStep policy) (0, 0, 0)).2.1 + ((policy.FetchWeight a.Kind).Value : ℚ) := by
    simp only [hg, hg', foldl_genericStep_passedWeight]
    simp [List.filter_append, List.filter_cons, hsat]
    ring
  rw [hpassed]
  apply div_le_div_of_nonneg_right _ (by norm_num)
  apply Round_mono
  apply mul_le_mul_of_nonneg_right _ (by norm_num)
  apply div_le_div_of_nonneg_right _ htpos.le
  linarith

/-- C19 at a policy weighing `tpm` 5 and the single annotation `tpm`, first not satisfied,
then satisfied. -/
theorem NewScore_confidence_mono_satisfied_witness :
    (NewScore 0 0 "data"
        [{ Key := "1", DataRef := "data", Hash := "", Host := "", Kind := "tpm", Signature := "",
           IsSatisfied := false, Timestamp := 0 }]
        { Name := "p", Weights := [{ AnnotationKey := "tpm", Value := 5 }],
          AttestationOptions := { CadenceThresholdMins := 50, TimeRangeMins := 0 } }).Confidence ≤
      (NewScore 0 0 "data"
        [{ Key := "1", DataRef := "data", Hash := "", Host := "", Kind := "tpm", Signature := "",
           IsSatisfied := true, Timestamp := 0 }]
        { Name := "p", Weights := [{ AnnotationKey := "tpm", Value := 5 }],
          AttestationOptions := { CadenceThresholdMins := 50, TimeRangeMins := 0 } }).Confidence :=
  NewScore_confidence_mono_satisfied 0 0 "data" [] []
    { Key := "1", DataRef := "data", Hash := "", Host := "", Kind := "tpm", Signature := "",
      IsSatisfied := false, Timestamp := 0 }
    { Name := "p", Weights := [{ AnnotationKey := "tpm", Value := 5 }],
      AttestationOptions := { CadenceThresholdMins := 50, TimeRangeMins := 0 } }
    (by decide) (by decide) rfl

end documents

/-! ## The unbounded case: bounds and closed form -/

namespace documents

open policies

theorem Minutes_nonneg {d : Int} (h : 0 ≤ d) : 0 ≤ Minutes d := by
  unfold Minutes
  have : (0 : ℚ) ≤ (d : ℚ) := by exact_mod_cast h
  positivity

theorem Minutes_pos {d : Int} (h : 0 < d) : 0 < Minutes d := by
  unfold Minutes
  have : (0 : ℚ) < (d : ℚ) := by exact_mod_cast h
  positivity

theorem Minutes_sub_split (a b c : Int) :
    Minutes (a - c) = Minutes (a - b) + Minutes (b - c) := by
  unfold Minutes
  push_cast
  ring

/-- The walk over a slice in ascending order that starts at or after the limit and ends by
`now`: the covered minutes stay between 0 and the minutes from the limit to the last
annotation met, which is the previous annotation whenever one is recorded. -/
theorem foldl_walkStep_bounds (opts : AttestationOptions) (hc : 0 < opts.CadenceThresholdMins)
    (e now : Int) :
    ∀ (l : List Annotation) (st : ℚ × Annotation) (f : Int),
      e ≤ f → f ≤ now → 0 ≤ st.1 → st.1 ≤ Minutes (f - e) →
      (st.2 ≠ zeroAnnotation → st.2.Timestamp = f) →
      l.Pairwise (fun a b => a.Timestamp ≤ b.Timestamp) →
      (∀ a ∈ l, f ≤ a.Timestamp ∧ a.Timestamp ≤ now) →
      ∃ f', e ≤ f' ∧ f' ≤ now ∧ 0 ≤ (l.foldl (walkStep opts e) st).1 ∧
        (l.foldl (walkStep opts e) st).1 ≤ Minutes (f' - e) ∧
        ((l.foldl (walkStep opts e) st).2 ≠ zeroAnnotation →
          (l.foldl (walkStep opts e) st).2.Timestamp = f') := by
  intro l
  induction l with
  | nil =>
    intro st f hef hfn h0 h1 h2 _ _
    exact ⟨f, hef, hfn, h0, h1, h2⟩
  | cons a rest ih =>
    intro st f hef hfn h0 h1 h2 hp hall
    rw [List.pairwise_cons] at hp
    obtain ⟨hfa, han⟩ := hall a (List.mem_cons_self _ _)
    have hnb : ¬ a.Timestamp < e := by omega
    have hcq : (0 : ℚ) < (opts.CadenceThresholdMins : ℚ) := by exact_mod_cast hc
    have hsplit := Minutes_sub_split a.Timestamp f e
    have hgap : 0 ≤ Minutes (a.Timestamp - f) := Minutes_nonneg (by omega)
    rw [List.foldl_cons]
    apply ih (walkStep opts e st a) a.Timestamp (by omega) han
    · by_cases hz : st.2 = zeroAnnotation
      · simp [walkStep, hnb, hz, h0]
      · have hts := h2 hz
        simp only [walkStep, hnb, hz, if_false]
        rw [hts]
        have : 0 ≤ min (Minutes (a.Timestamp - f)) (opts.CadenceThresholdMins : ℚ) :=
          le_min hgap hcq.le
        linarith
    · by_cases hz : st.2 = zeroAnnotation
      · simp only [walkStep, hnb, hz, if_false, if_true]
        linarith
      · have hts := h2 hz
        simp only [walkStep, hnb, hz, if_false]
        rw [hts]
        have : min (Minutes (a.Timestamp - f)) (opts.CadenceThresholdMins : ℚ)
            ≤ Minutes (a.Timestamp - f) := min_le_left _ _
        linarith
    · intro _
      by_cases hz : st.2 = zeroAnnotation <;> simp [walkStep, hnb, hz]
    · exact hp.2
    · intro b hb
      exact ⟨hp.1 b hb, (hall b (List.mem_cons_of_mem _ hb)).2⟩

/-- In exact arithmetic: in the unbounded case (`TimeRangeMins == 0`), for every non-empty
annotation list whose timestamps are all at or before `now`, the earliest strictly before
it, every positive cadence and every weight that is not negative, the score is a value from
0 to the weight. -/
theorem calcAttestationScore_unbounded_bounds (now : Int) (attest : List Annotation)
    (cadence weight : Int) (hne : attest ≠ [])
    (hall : ∀ a ∈ attest, a.Timestamp ≤ now) (hearly : ∃ a ∈ attest, a.Timestamp < now)
    (hc : 0 < cadence) (hw : 0 ≤ weight) :
    0 ≤ calcAttestationScore now attest ⟨cadence, 0⟩ weight ∧
      calcAttestationScore now attest ⟨cadence, 0⟩ weight ≤ weight := by
  obtain ⟨hperm, hsorted⟩ :=
    sortSlice_unbounded_perm_sorted attest ⟨cadence, 0⟩ rfl attest
  have hf : filterAnnotations now attest ⟨cadence, 0⟩ = attest := by simp [filterAnnotations]
  rw [calcAttestationScore_eq_of now attest ⟨cadence, 0⟩ weight attest _ _ hf hne rfl rfl]
  generalize sortSlice (sortLess attest ⟨cadence, 0⟩) attest = sorted at hperm hsorted ⊢
  cases sorted with
  | nil => exact absurd (hperm.symm.eq_nil) hne
  | cons h t =>
    have hmem : ∀ a ∈ h :: t, a.Timestamp ≤ now := fun a ha => hall a (hperm.subset ha)
    have hhead : ∀ a ∈ h :: t, h.Timestamp ≤ a.Timestamp := by
      intro a ha
      rcases List.mem_cons.mp ha with rfl | ha
      · exact le_refl _
      · exact List.rel_of_pairwise_cons hsorted ha
    have hlt : h.Timestamp < now := by
      obtain ⟨a, ha, han⟩ := hearly
      have := hhead a (hperm.symm.subset ha)
      omega
    simp only [if_true, List.headD_cons]
    obtain ⟨f', hef', hfn', h0, h1, h2⟩ :=
      foldl_walkStep_bounds ⟨cadence, 0⟩ hc h.Timestamp now (h :: t) (0, zeroAnnotation)
        h.Timestamp (le_refl _) hlt.le (le_refl _) (by simp [Minutes]) (fun hz => absurd rfl hz)
        hsorted (fun a ha => ⟨hhead a ha, hmem a ha⟩)
    generalize (h :: t).foldl (walkStep ⟨cadence, 0⟩ h.Timestamp) (0, zeroAnnotation) = st
      at h0 h1 h2 ⊢
    have hM : 0 < Minutes (now - h.Timestamp) := Minutes_pos (by omega)
    have hcq : (0 : ℚ) < (cadence : ℚ) := by exact_mod_cast hc
    have hwq : (0 : ℚ) ≤ (weight : ℚ) := by exact_mod_cast hw
    have hsplit := Minutes_sub_split now f' h.Timestamp
    have hlast : 0 ≤ Minutes (now - f') := Minutes_nonneg (by omega)
    have hT : 0 ≤ (if st.2 ≠ zeroAnnotation then
          st.1 + min (Minutes (now - st.2.Timestamp)) ((cadence : Int) : ℚ) else st.1) ∧
        (if st.2 ≠ zeroAnnotation then
          st.1 + min (Minutes (now - st.2.Timestamp)) ((cadence : Int) : ℚ) else st.1)
          ≤ Minutes (now - h.Timestamp) := by
      by_cases hz : st.2 = zeroAnnotation
      · simp only [hz, ne_eq, not_true_eq_false, if_false]
        exact ⟨h0, by linarith⟩
      · have hts := h2 hz
        simp only [hz, ne_eq, not_false_eq_true, if_true]
        rw [hts]
        have hmin0 : 0 ≤ min (Minutes (now - f')) (cadence : ℚ) := le_min hlast hcq.le
        have hmin1 : min (Minutes (now - f')) (cadence : ℚ) ≤ Minutes (now - f') :=
          min_le_left _ _
        exact ⟨by linarith, by linarith⟩
    obtain ⟨hT0, hT1⟩ := hT
    constructor
    · exact mul_nonneg (div_nonneg hT0 hM.le) hwq
    · have hfrac : (if st.2 ≠ zeroAnnotation then
          st.1 + min (Minutes (now - st.2.Timestamp)) ((cadence : Int) : ℚ) else st.1) /
          Minutes (now - h.Timestamp) ≤ 1 := (div_le_one hM).mpr hT1
      calc _ ≤ 1 * (weight : ℚ) := mul_le_mul_of_nonneg_right hfrac hwq
        _ = weight := one_mul _

/-- The exact bounds at the first scenario of the test, the clock at 0. -/
theorem calcAttestationScore_unbounded_bounds_witness :
    0 ≤ calcAttestationScore 0 (testAnnotations 0) ⟨50, 0⟩ 1 ∧
      calcAttestationScore 0 (testAnnotations 0) ⟨50, 0⟩ 1 ≤ ((1 : Int) : ℚ) :=
  calcAttestationScore_unbounded_bounds 0 (testAnnotations 0) 50 1
    (by decide) (by decide) (by decide) (by decide) (by decide)

/-- Two arrangements of the same annotations, one with no timestamp after the next and one
with every timestamp strictly before the next, are the same list. -/
theorem eq_of_perm_of_ascending (l1 l2 : List Annotation) (hp : l1.Perm l2)
    (h1 : l1.Pairwise fun a b => a.Timestamp ≤ b.Timestamp)
    (h2 : l2.Pairwise fun a b => a.Timestamp < b.Timestamp) : l1 = l2 := by
  have hinj : ∀ a ∈ l2, ∀ b ∈ l2, a.Timestamp = b.Timestamp → a = b := by
    intro a ha b hb hab
    by_contra hne
    have hsym : Symmetric fun a b : Annotation => a.Timestamp ≠ b.Timestamp :=
      fun _ _ h => h.symm
    have := List.Pairwise.forall hsym (h2.imp fun h => ne_of_lt h) ha hb hne
    exact this hab
  haveI : IsAntisymm Annotation fun a b => a.Timestamp < b.Timestamp ∨ a = b :=
    ⟨fun a b hab hba => by
      rcases hab with hab | hab
      · rcases hba with hba | hba
        · omega
        · exact hba.symm
      · exact hab⟩
  have hs2 : l2.Sorted fun a b => a.Timestamp < b.Timestamp ∨ a = b :=
    h2.imp fun h => Or.inl h
  have hs1 : l1.Sorted fun a b => a.Timestamp < b.Timestamp ∨ a = b := by
    refine h1.imp_of_mem ?_
    intro a b ha hb hab
    rcases lt_or_eq_of_le hab with hlt | heq
    · exact Or.inl hlt
    · exact Or.inr (hinj a (hp.subset ha) b (hp.subset hb) heq)
  exact List.eq_of_perm_of_sorted hp hs1 hs2

/-- The walk past a recorded previous annotation, over annotations in strictly ascending
order none of which is `Annotation{}`: with the interval from the last one to `now` added,
the covered minutes are those of the closed formula. -/
theorem foldl_walkStep_formula (opts : AttestationOptions) (e now : Int) :
    ∀ (l : List Annotation) (prev : Annotation) (acc : ℚ),
      prev ≠ zeroAnnotation → e ≤ prev.Timestamp →
      (prev :: l).Pairwise (fun a b => a.Timestamp < b.Timestamp) →
      (∀ a ∈ l, a ≠ zeroAnnotation) →
      (l.foldl (walkStep opts e) (acc, prev)).2 ≠ zeroAnnotation ∧
        (l.foldl (walkStep opts e) (acc, prev)).1 +
            min (Minutes (now - (l.foldl (walkStep opts e) (acc, prev)).2.Timestamp))
              (opts.CadenceThresholdMins : ℚ) =
          acc + coveredSpec now opts.CadenceThresholdMins
            ((prev :: l).map fun a => a.Timestamp) := by
  intro l
  induction l with
  | nil =>
    intro prev acc hprev _ _ _
    exact ⟨hprev, by simp [coveredSpec]⟩
  | cons a rest ih =>
    intro prev acc hprev he hp hnz
    rw [List.pairwise_cons] at hp
    have hpa : prev.Timestamp < a.Timestamp := hp.1 a (List.mem_cons_self _ _)
    have hnb : ¬ a.Timestamp < e := by omega
    have hstep : walkStep opts e (acc, prev) a =
        (acc + min (Minutes (a.Timestamp - prev.Timestamp)) (opts.CadenceThresholdMins : ℚ), a) := by
      simp [walkStep, hnb, hprev]
    rw [List.foldl_cons, hstep]
    obtain ⟨hz, heq⟩ := ih a _ (hnz a (List.mem_cons_self _ _)) (by omega) hp.2
      (fun b hb => hnz b (List.mem_cons_of_mem _ hb))
    refine ⟨hz, ?_⟩
    rw [heq]
    simp [coveredSpec, add_assoc]

/-- In exact arithmetic: in the unbounded case, for every non-empty annotation list whose
annotations, put in order, have strictly ascending timestamps all before `now`, and none of
which is the zero value `Annotation{}`, the minutes from the earliest timestamp to
`now` are positive and `calcAttestationScore` is the weight times the closed formula over
those minutes. -/
theorem calcAttestationScore_unbounded_formula (now : Int) (attest sorted : List Annotation)
    (cadence weight : Int) (hperm : attest.Perm sorted) (hne : attest ≠ [])
    (hnz : ∀ a ∈ attest, a ≠ zeroAnnotation)
    (hs : sorted.Pairwise fun a b => a.Timestamp < b.Timestamp)
    (hnow : ∀ a ∈ attest, a.Timestamp < now) :
    0 < Minutes (now - (sorted.headD zeroAnnotation).Timestamp) ∧
      calcAttestationScore now attest ⟨cadence, 0⟩ weight =
        (weight : ℚ) * coveredSpec now cadence (sorted.map fun a => a.Timestamp) /
          Minutes (now - (sorted.headD zeroAnnotation).Timestamp) := by
  obtain ⟨hperm', hsorted⟩ :=
    sortSlice_unbounded_perm_sorted attest ⟨cadence, 0⟩ rfl attest
  have hsort : sortSlice (sortLess attest ⟨cadence, 0⟩) attest = sorted :=
    eq_of_perm_of_ascending _ _ (hperm'.trans hperm) hsorted hs
  have hf : filterAnnotations now attest ⟨cadence, 0⟩ = attest := by simp [filterAnnotations]
  rw [calcAttestationScore_eq_of now attest ⟨cadence, 0⟩ weight attest sorted _ hf hne hsort rfl]
  cases sorted with
  | nil => exact absurd hperm.eq_nil hne
  | cons h t =>
    have hhz : h ≠ zeroAnnotation := hnz h (hperm.symm.subset (List.mem_cons_self _ _))
    have hfirst : walkStep ⟨cadence, 0⟩ h.Timestamp (0, zeroAnnotation) h = (0, h) := by
      simp [walkStep]
    have hpos : 0 < Minutes (now - h.Timestamp) :=
      Minutes_pos (by
        have := hnow h (hperm.symm.subset (List.mem_cons_self _ _))
        omega)
    simp only [if_true, List.headD_cons, List.foldl_cons, hfirst]
    refine ⟨hpos, ?_⟩
    obtain ⟨hz, heq⟩ := foldl_walkStep_formula ⟨cadence, 0⟩ h.Timestamp now t h 0 hhz
      (le_refl _) hs (fun a ha => hnz a (hperm.symm.subset (List.mem_cons_of_mem _ ha)))
    rw [if_pos hz, heq]
    ring

/-- The exact formula at the first scenario of the test, the clock at 0: the input holds
the annotations latest first, and the formula is taken over them earliest first. -/
theorem calcAttestationScore_unbounded_formula_witness :
    calcAttestationScore 0 (testAnnotations 0) ⟨50, 0⟩ 1 =
      ((1 : Int) : ℚ) *
          coveredSpec 0 50 ((testAnnotations 0).reverse.map fun a => a.Timestamp) /
        Minutes (0 - ((testAnnotations 0).reverse.headD zeroAnnotation).Timestamp) :=
  (calcAttestationScore_unbounded_formula 0 (testAnnotations 0) (testAnnotations 0).reverse
    50 1 (List.reverse_perm _).symm (by decide) (by decide) (by decide) (by decide)).2

/-- The exact formula fails at a list that holds the zero value `Annotation{}`: at the clock
reading of 10 minutes, cadence 50 and weight 1, the list of `Annotation{}` (instant 0) and
an annotation made at 5 minutes scores 1/2, where the closed formula gives 1. -/
theorem calcAttestationScore_unbounded_formula_fails_at_zero :
    ¬ ∀ (now : Int) (attest sorted : List Annotation) (cadence weight : Int),
      attest.Perm sorted → attest ≠ [] →
      (sorted.Pairwise fun a b => a.Timestamp < b.Timestamp) →
      (∀ a ∈ attest, a.Timestamp < now) →
      calcAttestationScore now attest ⟨cadence, 0⟩ weight =
        (weight : ℚ) * coveredSpec now cadence (sorted.map fun a => a.Timestamp) /
          Minutes (now - (sorted.headD zeroAnnotation).Timestamp) := by
  intro h
  have hclaim := h 600000000000
    [ zeroAnnotation, { zeroAnnotation with Key := "b", Timestamp := 300000000000 }]
    [ zeroAnnotation, { zeroAnnotation with Key := "b", Timestamp := 300000000000 }]
    50 1 (List.Perm.refl _) (by decide) (by decide) (by decide)
  have hs : sortSlice
      (sortLess [ zeroAnnotation, { zeroAnnotation with Key := "b", Timestamp := 300000000000 }]
        ⟨50, 0⟩)
      [ zeroAnnotation, { zeroAnnotation with Key := "b", Timestamp := 300000000000 }]
      = [ zeroAnnotation, { zeroAnnotation with Key := "b", Timestamp := 300000000000 }] := by
    simp [sortSlice, sortLess, insertionInner, zeroAnnotation, List.range']
  have hcode : calcAttestationScore 600000000000
      [ zeroAnnotation, { zeroAnnotation with Key := "b", Timestamp := 300000000000 }]
      ⟨50, 0⟩ 1 = 1 / 2 := by
    rw [calcAttestationScore_eq_of _ _ _ _ _ _ _ (by simp [filterAnnotations]) (by simp) hs rfl]
    simp [walkStep, zeroAnnotation, Minutes]
    norm_num
  rw [hcode] at hclaim
  revert hclaim
  simp [coveredSpec, zeroAnnotation, Minutes]
  norm_num

end documents

/-! ## Rounding to a machine format -/

namespace documents

open policies

theorem roundHalfEven_intCast (n : Int) : roundHalfEven (n : ℚ) = n := by
  simp [roundHalfEven]

/-- Rounding to an integer does not cross an integer. -/
theorem roundHalfEven_le_of_le {m : ℚ} {K : Int} (h : m ≤ K) : roundHalfEven m ≤ K := by
  have hf : ⌊m⌋ ≤ K := by
    have := Int.floor_mono h
    simpa using this
  have hfl : (⌊m⌋ : ℚ) ≤ m := Int.floor_le m
  unfold roundHalfEven
  simp only
  by_cases hK : ⌊m⌋ = K
  · have : m - (⌊m⌋ : ℚ) < 1 / 2 := by
      rw [hK]
      linarith
    rw [if_pos this, hK]
  · have hlt : ⌊m⌋ + 1 ≤ K := by omega
    split_ifs <;> omega

theorem roundHalfEven_ge_of_ge {m : ℚ} {K : Int} (h : (K : ℚ) ≤ m) : K ≤ roundHalfEven m := by
  have hf : K ≤ ⌊m⌋ := Int.le_floor.mpr h
  unfold roundHalfEven
  simp only
  split_ifs <;> omega

theorem roundNE_zero (p : Nat) (emin : Int) : roundNE p emin 0 = 0 := by
  simp [roundNE]

/-- The halving count brackets a positive number between two powers of 2. -/
theorem log2Fuel_spec : ∀ (fuel n : Nat), n ≤ fuel → 0 < n →
    2 ^ log2Fuel fuel n ≤ n ∧ n < 2 ^ (log2Fuel fuel n + 1) := by
  intro fuel
  induction fuel with
  | zero => intro n h1 h2; omega
  | succ f ih =>
    intro n hle hpos
    unfold log2Fuel
    by_cases h2 : n < 2
    · simp only [h2, if_true]
      constructor <;> simp <;> omega
    · simp only [h2, if_false]
      have hhalf : n / 2 ≤ f := by omega
      have hhpos : 0 < n / 2 := by omega
      obtain ⟨hl, hu⟩ := ih (n / 2) hhalf hhpos
      constructor
      · calc 2 ^ (log2Fuel f (n / 2) + 1) = 2 ^ log2Fuel f (n / 2) * 2 := by ring
          _ ≤ (n / 2) * 2 := Nat.mul_le_mul_right 2 hl
          _ ≤ n := Nat.div_mul_le_self n 2
      · calc n < (n / 2 + 1) * 2 := by omega
          _ ≤ 2 ^ (log2Fuel f (n / 2) + 1) * 2 := Nat.mul_le_mul_right 2 hu
          _ = 2 ^ (log2Fuel f (n / 2) + 1 + 1) := by ring

/-- The exponent `ilog2 x` brackets `|x|` between two powers of 2. -/
theorem ilog2_spec {x : ℚ} (hx : x ≠ 0) :
    (2 : ℚ) ^ ilog2 x ≤ |x| ∧ |x| < (2 : ℚ) ^ (ilog2 x + 1) := by
  have hnum : 0 < x.num.natAbs := Int.natAbs_pos.mpr (Rat.num_ne_zero.mpr hx)
  have hden : 0 < x.den := x.den_pos
  obtain ⟨hal, hau⟩ := log2Fuel_spec x.num.natAbs x.num.natAbs le_rfl hnum
  obtain ⟨hbl, hbu⟩ := log2Fuel_spec x.den x.den le_rfl hden
  have habs : |x| = (x.num.natAbs : ℚ) / (x.den : ℚ) := by
    have h1 : |x| = |(x.num : ℚ)| / |(x.den : ℚ)| := by
      conv_lhs => rw [← Rat.num_div_den x]
      rw [abs_div]
    rw [h1, Nat.abs_cast, Nat.cast_natAbs, Int.cast_abs]
  have hdq : (0 : ℚ) < (x.den : ℚ) := by exact_mod_cast hden
  have halq : (2 : ℚ) ^ (log2Fuel x.num.natAbs x.num.natAbs) ≤ (x.num.natAbs : ℚ) := by
    exact_mod_cast hal
  have hauq : (x.num.natAbs : ℚ) < (2 : ℚ) ^ (log2Fuel x.num.natAbs x.num.natAbs + 1) := by
    exact_mod_cast hau
  have hblq : (2 : ℚ) ^ (log2Fuel x.den x.den) ≤ (x.den : ℚ) := by exact_mod_cast hbl
  have hbuq : (x.den : ℚ) < (2 : ℚ) ^ (log2Fuel x.den x.den + 1) := by exact_mod_cast hbu
  set la := log2Fuel x.num.natAbs x.num.natAbs with hla
  set lb := log2Fuel x.den x.den with hlb
  have hpa : (0 : ℚ) < (2 : ℚ) ^ lb := by positivity
  -- the two candidate exponents
  have hupper : |x| < (2 : ℚ) ^ ((la : Int) - (lb : Int) + 1) := by
    rw [habs, div_lt_iff₀ hdq]
    have : (2 : ℚ) ^ ((la : Int) - (lb : Int) + 1) * (2 : ℚ) ^ lb = (2 : ℚ) ^ (la + 1) := by
      rw [← zpow_natCast (2 : ℚ) lb, ← zpow_add₀ (by norm_num : (2 : ℚ) ≠ 0),
        ← zpow_natCast (2 : ℚ) (la + 1)]
      congr 1
      push_cast
      ring
    calc (x.num.natAbs : ℚ) < (2 : ℚ) ^ (la + 1) := hauq
      _ = (2 : ℚ) ^ ((la : Int) - (lb : Int) + 1) * (2 : ℚ) ^ lb := this.symm
      _ ≤ (2 : ℚ) ^ ((la : Int) - (lb : Int) + 1) * (x.den : ℚ) :=
        mul_le_mul_of_nonneg_left hblq (by positivity)
  have hlower : (2 : ℚ) ^ ((la : Int) - (lb : Int) - 1) ≤ |x| := by
    rw [habs, le_div_iff₀ hdq]
    have : (2 : ℚ) ^ ((la : Int) - (lb : Int) - 1) * (2 : ℚ) ^ (lb + 1) = (2 : ℚ) ^ la := by
      rw [← zpow_natCast (2 : ℚ) (lb + 1), ← zpow_add₀ (by norm_num : (2 : ℚ) ≠ 0),
        ← zpow_natCast (2 : ℚ) la]
      congr 1
      push_cast
      ring
    calc (2 : ℚ) ^ ((la : Int) - (lb : Int) - 1) * (x.den : ℚ)
        ≤ (2 : ℚ) ^ ((la : Int) - (lb : Int) - 1) * (2 : ℚ) ^ (lb + 1) :=
          mul_le_mul_of_nonneg_left hbuq.le (by positivity)
      _ = (2 : ℚ) ^ la := this
      _ ≤ (x.num.natAbs : ℚ) := halq
  unfold ilog2
  simp only [← hla, ← hlb]
  by_cases hk : (2 : ℚ) ^ ((la : Int) - (lb : Int)) ≤ |x|
  · rw [if_pos hk]
    exact ⟨hk, hupper⟩
  · rw [if_neg hk]
    refine ⟨hlower, ?_⟩
    have : (la : Int) - (lb : Int) - 1 + 1 = (la : Int) - (lb : Int) := by ring
    rw [this]
    exact not_le.mp hk

/-- A value of the format is left as it is: `m * 2 ^ e0` with `|m| < 2 ^ p`, `emin ≤ e0`. -/
theorem roundNE_of_repr (p : Nat) (emin : Int) (m e0 : Int) (hm : |m| < 2 ^ p)
    (he : emin ≤ e0) : roundNE p emin ((m : ℚ) * (2 : ℚ) ^ e0) = (m : ℚ) * (2 : ℚ) ^ e0 := by
  by_cases hx : (m : ℚ) * (2 : ℚ) ^ e0 = 0
  · rw [hx, roundNE_zero]
  · have hlog := (ilog2_spec hx).1
    have habs : |(m : ℚ) * (2 : ℚ) ^ e0| < (2 : ℚ) ^ ((p : Int) + e0) := by
      rw [abs_mul, abs_of_pos (by positivity : (0 : ℚ) < (2 : ℚ) ^ e0),
        zpow_add₀ (by norm_num : (2 : ℚ) ≠ 0), zpow_natCast]
      have : |(m : ℚ)| < (2 : ℚ) ^ p := by exact_mod_cast hm
      exact mul_lt_mul_of_pos_right this (by positivity)
    have hlt : ilog2 ((m : ℚ) * (2 : ℚ) ^ e0) < (p : Int) + e0 :=
      (zpow_lt_zpow_iff_right₀ (by norm_num : (1 : ℚ) < 2)).mp (lt_of_le_of_lt hlog habs)
    have hle : max (ilog2 ((m : ℚ) * (2 : ℚ) ^ e0) - ((p : Int) - 1)) emin ≤ e0 :=
      max_le (by omega) he
    unfold roundNE
    simp only [hx, if_false]
    generalize max (ilog2 ((m : ℚ) * (2 : ℚ) ^ e0) - ((p : Int) - 1)) emin = e at hle
    obtain ⟨d, hd⟩ := Int.eq_ofNat_of_zero_le (sub_nonneg.mpr hle)
    have he0 : e0 = e + d := by omega
    have hq : (m : ℚ) * (2 : ℚ) ^ e0 / (2 : ℚ) ^ e = ((m * 2 ^ d : Int) : ℚ) := by
      rw [he0, zpow_add₀ (by norm_num : (2 : ℚ) ≠ 0), zpow_natCast]
      push_cast
      field_simp
      ring
    rw [hq, roundHalfEven_intCast, he0, zpow_add₀ (by norm_num : (2 : ℚ) ≠ 0), zpow_natCast]
    push_cast
    ring

/-- What the rounding returns is a value of the format: rounding it again changes nothing. -/
theorem roundNE_idem (p : Nat) (emin : Int) (hp : 1 ≤ p) (x : ℚ) :
    roundNE p emin (roundNE p emin x) = roundNE p emin x := by
  by_cases hx : x = 0
  · simp [hx, roundNE_zero]
  · obtain ⟨_, hup⟩ := ilog2_spec hx
    have hdef : roundNE p emin x =
        (roundHalfEven (x / (2 : ℚ) ^ (max (ilog2 x - ((p : Int) - 1)) emin)) : ℚ) *
          (2 : ℚ) ^ (max (ilog2 x - ((p : Int) - 1)) emin) := by
      simp [roundNE, hx]
    have hemin : emin ≤ max (ilog2 x - ((p : Int) - 1)) emin := le_max_right _ _
    have hge : ilog2 x + 1 - (p : Int) ≤ max (ilog2 x - ((p : Int) - 1)) emin :=
      le_trans (by omega) (le_max_left _ _)
    rw [hdef]
    generalize max (ilog2 x - ((p : Int) - 1)) emin = e at hemin hge
    have hpos : (0 : ℚ) < (2 : ℚ) ^ e := by positivity
    have hq : |x / (2 : ℚ) ^ e| < (2 : ℚ) ^ p := by
      rw [abs_div, abs_of_pos hpos, div_lt_iff₀ hpos, ← zpow_natCast (2 : ℚ) p,
        ← zpow_add₀ (by norm_num : (2 : ℚ) ≠ 0)]
      refine lt_of_lt_of_le hup ?_
      exact (zpow_le_zpow_iff_right₀ (by norm_num : (1 : ℚ) < 2)).mpr (by omega)
    have hqu : x / (2 : ℚ) ^ e ≤ ((2 ^ p : Int) : ℚ) := by
      push_cast
      exact (le_abs_self _).trans hq.le
    have hql : ((-(2 ^ p) : Int) : ℚ) ≤ x / (2 : ℚ) ^ e := by
      push_cast
      have := neg_abs_le (x / (2 : ℚ) ^ e)
      linarith
    have hnu := roundHalfEven_le_of_le hqu
    have hnl := roundHalfEven_ge_of_ge hql
    generalize roundHalfEven (x / (2 : ℚ) ^ e) = n at hnu hnl
    have h2p : (2 : Int) ^ p = 2 * 2 ^ (p - 1) := by
      rw [← pow_succ']
      congr 1
      omega
    have h2pos : (0 : Int) < 2 ^ (p - 1) := by positivity
    rcases lt_or_eq_of_le hnu with hlt | heq
    · rcases lt_or_eq_of_le hnl with hlt' | heq'
      · exact roundNE_of_repr p emin n e (abs_lt.mpr ⟨hlt', hlt⟩) hemin
      · have hrew : (n : ℚ) * (2 : ℚ) ^ e = ((-(2 ^ (p - 1)) : Int) : ℚ) * (2 : ℚ) ^ (e + 1) := by
          rw [← heq', h2p, zpow_add₀ (by norm_num : (2 : ℚ) ≠ 0)]
          push_cast
          ring
        rw [hrew]
        refine roundNE_of_repr p emin _ (e + 1) ?_ (by omega)
        rw [abs_neg, abs_of_pos h2pos, h2p]
        omega
    · have hrew : (n : ℚ) * (2 : ℚ) ^ e = ((2 ^ (p - 1) : Int) : ℚ) * (2 : ℚ) ^ (e + 1) := by
        rw [heq, h2p, zpow_add₀ (by norm_num : (2 : ℚ) ≠ 0)]
        push_cast
        ring
      rw [hrew]
      refine roundNE_of_repr p emin _ (e + 1) ?_ (by omega)
      rw [abs_of_pos h2pos, h2p]
      omega

theorem F32_idem (x : ℚ) : F32 (F32 x) = F32 x := roundNE_idem 24 _ (by norm_num) x

theorem F32_zero : F32 0 = 0 := roundNE_zero _ _

/-- An integer of at most 24 bits is a `float32`. -/
theorem F32_intCast (n : Int) (h : |n| < 2 ^ 24) : F32 (n : ℚ) = n := by
  have := roundNE_of_repr 24 (-149) n 0 h (by norm_num)
  simpa [F32] using this

end documents

/-! ## The test scenarios in the machine formats -/

namespace documents

open policies

/-- `Time.Sub` depends on the difference of its arguments only. -/
theorem Sub_ago_ago (now a b : Int) : Sub (ago now a) (ago now b) = Sub ((b - a) * Minute) 0 := by
  simp only [Sub, ago]
  have : now + -Minute * a - (now + -Minute * b) = (b - a) * Minute - 0 := by ring
  rw [this]

theorem Sub_now_ago (now a : Int) : Sub now (ago now a) = Sub (a * Minute) 0 := by
  simp only [Sub, ago]
  have : now - (now + -Minute * a) = a * Minute - 0 := by ring
  rw [this]

/-- The value of `calcAttestationScore32` once the filtered slice, its order after
`sort.Slice` and the outcome of the walk are known. -/
theorem calcAttestationScore32_eq_of (now : Int) (attest : List Annotation)
    (opts : AttestationOptions) (weight : Int) (filtered sorted : List Annotation)
    (st : ℚ × Annotation)
    (hf : filterAnnotations64 now attest opts = filtered) (hne : filtered ≠ [])
    (hs : sortSlice (sortLess attest opts) filtered = sorted)
    (hw : sorted.foldl
        (walkStep32 opts (if opts.TimeRangeMins = 0 then (sorted.headD zeroAnnotation).Timestamp
          else now + wrap64 (-Minute * opts.TimeRangeMins))) (0, zeroAnnotation) = st) :
    calcAttestationScore32 now attest opts weight =
      F32 (F32 ((if st.2 ≠ zeroAnnotation then
          F32 (st.1 + F32 (min (Minutes64 (Sub now st.2.Timestamp))
            (F64 (opts.CadenceThresholdMins : ℚ))))
        else st.1) /
        F32 (Minutes64 (Sub now (if opts.TimeRangeMins = 0
          then (sorted.headD zeroAnnotation).Timestamp
          else now + wrap64 (-Minute * opts.TimeRangeMins))))) * F32 (weight : ℚ)) := by
  subst hf hs hw
  have : (filterAnnotations64 now attest opts).length ≠ 0 := by
    simpa [List.length_eq_zero] using hne
  simp only [calcAttestationScore32, this, if_false]

theorem calcAttestationScore32_of_filter_nil (now : Int) (attest : List Annotation)
    (opts : AttestationOptions) (weight : Int)
    (hf : filterAnnotations64 now attest opts = []) :
    calcAttestationScore32 now attest opts weight = 0 := by
  simp [calcAttestationScore32, hf]

theorem wrap64_small (x : Int) (h1 : minDuration ≤ x) (h2 : x ≤ maxDuration) : wrap64 x = x := by
  simp only [wrap64, minDuration, maxDuration] at *
  omega

theorem test32_full_range (now : Int) (a1 a2 a3 : Annotation)
    (h1 : a1.Timestamp = now + -60 * Minute) (h2 : a2.Timestamp = now + -90 * Minute)
    (h3 : a3.Timestamp = now + -200 * Minute)
    (z1 : a1 ≠ zeroAnnotation) (z2 : a2 ≠ zeroAnnotation) (z3 : a3 ≠ zeroAnnotation) :
    calcAttestationScore32 now [a1, a2, a3] ⟨50, 0⟩ 1 = F32 (130 / 200) := by
  have e1 : a1.Timestamp = ago now 60 := by rw [h1]; simp [ago, mul_comm]
  have e2 : a2.Timestamp = ago now 90 := by rw [h2]; simp [ago, mul_comm]
  have e3 : a3.Timestamp = ago now 200 := by rw [h3]; simp [ago, mul_comm]
  have hs : sortSlice (sortLess [a1, a2, a3] ⟨50, 0⟩) [a1, a2, a3] = [a3, a2, a1] := by
    simp [sortSlice, sortLess, insertionInner, swapAt, List.range', e1, e2, e3, ago_lt_ago]
  rw [calcAttestationScore32_eq_of now _ _ _ _ _ _ (by simp [filterAnnotations64])
    (by simp) hs rfl]
  simp [walkStep32, z1, z2, z3, e1, e2, e3, ago_lt_ago, Sub_ago_ago, Sub_now_ago]
  decide!

theorem test32_last_100 (now : Int) (a1 a2 a3 : Annotation)
    (h1 : a1.Timestamp = now + -60 * Minute) (h2 : a2.Timestamp = now + -90 * Minute)
    (h3 : a3.Timestamp = now + -200 * Minute)
    (z1 : a1 ≠ zeroAnnotation) (z2 : a2 ≠ zeroAnnotation) :
    calcAttestationScore32 now [a1, a2, a3] ⟨20, 100⟩ 1 = F32 (40 / 100) := by
  have e1 : a1.Timestamp = ago now 60 := by rw [h1]; simp [ago, mul_comm]
  have e2 : a2.Timestamp = ago now 90 := by rw [h2]; simp [ago, mul_comm]
  have e3 : a3.Timestamp = ago now 200 := by rw [h3]; simp [ago, mul_comm]
  have w1 : wrap64 (-(Minute * 100)) = -(Minute * 100) := by decide
  have w2 : wrap64 (-(Minute * 20)) = -(Minute * 20) := by decide
  have hf : filterAnnotations64 now [a1, a2, a3] ⟨20, 100⟩ = [a1, a2] := by
    simp [filterAnnotations64, w1, w2, e1, e2, e3, ago_of_neg_mul, ago_ago, ago_lt_ago]
  have hs : sortSlice (sortLess [a1, a2, a3] ⟨20, 100⟩) [a1, a2] = [a2, a1] := by
    simp [sortSlice, sortLess, insertionInner, swapAt, List.range', e1, e2, ago_lt_ago]
  rw [calcAttestationScore32_eq_of now _ _ _ _ _ _ hf (by simp) hs rfl]
  simp [walkStep32, z1, z2, w1, e1, e2, ago_of_neg_mul, ago_lt_ago, Sub_ago_ago, Sub_now_ago]
  decide!

theorem test32_last_50 (now : Int) (a1 a2 a3 : Annotation)
    (h1 : a1.Timestamp = now + -60 * Minute) (h2 : a2.Timestamp = now + -90 * Minute)
    (h3 : a3.Timestamp = now + -200 * Minute) :
    calcAttestationScore32 now [a1, a2, a3] ⟨10, 50⟩ 1 = 0 := by
  have e1 : a1.Timestamp = ago now 60 := by rw [h1]; simp [ago, mul_comm]
  have e2 : a2.Timestamp = ago now 90 := by rw [h2]; simp [ago, mul_comm]
  have e3 : a3.Timestamp = ago now 200 := by rw [h3]; simp [ago, mul_comm]
  have w1 : wrap64 (-(Minute * 50)) = -(Minute * 50) := by decide
  have w2 : wrap64 (-(Minute * 10)) = -(Minute * 10) := by decide
  apply calcAttestationScore32_of_filter_nil
  simp [filterAnnotations64, w1, w2, e1, e2, e3, ago_of_neg_mul, ago_ago, ago_lt_ago]

theorem test32_before_start_1 (now : Int) (a1 a2 a3 : Annotation)
    (h1 : a1.Timestamp = now + -60 * Minute) (h2 : a2.Timestamp = now + -90 * Minute)
    (h3 : a3.Timestamp = now + -200 * Minute)
    (z1 : a1 ≠ zeroAnnotation) (z2 : a2 ≠ zeroAnnotation) :
    calcAttestationScore32 now [a1, a2, a3] ⟨50, 180⟩ 1 = F32 (110 / 180) := by
  have e1 : a1.Timestamp = ago now 60 := by rw [h1]; simp [ago, mul_comm]
  have e2 : a2.Timestamp = ago now 90 := by rw [h2]; simp [ago, mul_comm]
  have e3 : a3.Timestamp = ago now 200 := by rw [h3]; simp [ago, mul_comm]
  have w1 : wrap64 (-(Minute * 180)) = -(Minute * 180) := by decide
  have w2 : wrap64 (-(Minute * 50)) = -(Minute * 50) := by decide
  have hf : filterAnnotations64 now [a1, a2, a3] ⟨50, 180⟩ = [a1, a2, a3] := by
    simp [filterAnnotations64, w1, w2, e1, e2, e3, ago_of_neg_mul, ago_ago, ago_lt_ago]
  have hs : sortSlice (sortLess [a1, a2, a3] ⟨50, 180⟩) [a1, a2, a3] = [a3, a2, a1] := by
    simp [sortSlice, sortLess, insertionInner, swapAt, List.range', e1, e2, e3, ago_lt_ago]
  rw [calcAttestationScore32_eq_of now _ _ _ _ _ _ hf (by simp) hs rfl]
  simp [walkStep32, z1, z2, w1, e1, e2, e3, ago_of_neg_mul, ago_lt_ago, Sub_ago_ago,
    Sub_now_ago]
  decide!

theorem test32_before_start_2 (now : Int) (a1 a2 a3 : Annotation)
    (h1 : a1.Timestamp = now + -60 * Minute) (h2 : a2.Timestamp = now + -90 * Minute)
    (h3 : a3.Timestamp = now + -200 * Minute) :
    calcAttestationScore32 now [a1, a2, a3] ⟨50, 50⟩ 1 = F32 (40 / 50) := by
  have e1 : a1.Timestamp = ago now 60 := by rw [h1]; simp [ago, mul_comm]
  have e2 : a2.Timestamp = ago now 90 := by rw [h2]; simp [ago, mul_comm]
  have e3 : a3.Timestamp = ago now 200 := by rw [h3]; simp [ago, mul_comm]
  have w1 : wrap64 (-(Minute * 50)) = -(Minute * 50) := by decide
  have hf : filterAnnotations64 now [a1, a2, a3] ⟨50, 50⟩ = [a1, a2] := by
    simp [filterAnnotations64, w1, e1, e2, e3, ago_of_neg_mul, ago_ago, ago_lt_ago]
  have hs : sortSlice (sortLess [a1, a2, a3] ⟨50, 50⟩) [a1, a2] = [a2, a1] := by
    simp [sortSlice, sortLess, insertionInner, swapAt, List.range', e1, e2, ago_lt_ago]
  rw [calcAttestationScore32_eq_of now _ _ _ _ _ _ hf (by simp) hs rfl]
  simp [walkStep32, w1, e1, e2, ago_of_neg_mul, ago_lt_ago, Sub_ago_ago, Sub_now_ago]
  decide!

/-- C2, as the code has it: with the clock fixed at any `now`, weight 1 and three
annotations made 60, 90 and 200 minutes before `now`, given in that order and none of them
the zero value `Annotation{}`, `calcAttestationScore` returns the `float32` nearest to
130/200 for cadence 50 and range 0, the one nearest to 40/100 for cadence 20 and range 100,
exactly 0 for cadence 10 and range 50, the one nearest to 110/180 for cadence 50 and range
180, and the one nearest to 40/50 for cadence 50 and range 50. -/
theorem calcAttestationScore32_test_scenarios (now : Int) (a1 a2 a3 : Annotation)
    (h1 : a1.Timestamp = now + -60 * Minute) (h2 : a2.Timestamp = now + -90 * Minute)
    (h3 : a3.Timestamp = now + -200 * Minute)
    (z1 : a1 ≠ zeroAnnotation) (z2 : a2 ≠ zeroAnnotation) (z3 : a3 ≠ zeroAnnotation) :
    calcAttestationScore32 now [a1, a2, a3] ⟨50, 0⟩ 1 = F32 (130 / 200) ∧
      calcAttestationScore32 now [a1, a2, a3] ⟨20, 100⟩ 1 = F32 (40 / 100) ∧
      calcAttestationScore32 now [a1, a2, a3] ⟨10, 50⟩ 1 = 0 ∧
      calcAttestationScore32 now [a1, a2, a3] ⟨50, 180⟩ 1 = F32 (110 / 180) ∧
      calcAttestationScore32 now [a1, a2, a3] ⟨50, 50⟩ 1 = F32 (40 / 50) :=
  ⟨test32_full_range now a1 a2 a3 h1 h2 h3 z1 z2 z3,
    test32_last_100 now a1 a2 a3 h1 h2 h3 z1 z2,
    test32_last_50 now a1 a2 a3 h1 h2 h3,
    test32_before_start_1 now a1 a2 a3 h1 h2 h3 z1 z2,
    test32_before_start_2 now a1 a2 a3 h1 h2 h3⟩

/-- The `float32` values nearest to the four fractions of the scenarios. -/
theorem F32_scenario_values :
    F32 (130 / 200) = 5452595 / 8388608 ∧ F32 (40 / 100) = 13421773 / 33554432 ∧
      F32 (110 / 180) = 10252743 / 16777216 ∧ F32 (40 / 50) = 13421773 / 16777216 := by
  decide!

/-- C2 at the annotations of `TestAttestScoreCalculation`, the clock at 0: the first
scenario returns 5452595/8388608, the `float32` that prints as 0.65. -/
theorem calcAttestationScore32_test_scenarios_witness :
    calcAttestationScore32 0 (testAnnotations 0) ⟨50, 0⟩ 1 = 5452595 / 8388608 :=
  ((calcAttestationScore32_test_scenarios 0 _ _ _ rfl rfl rfl (by decide) (by decide)
    (by decide)).1).trans F32_scenario_values.1

/-- C2 as stated fails: `calcAttestationScore` returns a `float32`, and with the clock at 0
the first scenario of the test returns 5452595/8388608, which is not 130/200. -/
theorem calcAttestationScore32_not_exact :
    ¬ ∀ now : Int,
      calcAttestationScore32 now (testAnnotations now) ⟨50, 0⟩ 1 = 130 / 200 ∧
        calcAttestationScore32 now (testAnnotations now) ⟨20, 100⟩ 1 = 40 / 100 ∧
        calcAttestationScore32 now (testAnnotations now) ⟨10, 50⟩ 1 = 0 ∧
        calcAttestationScore32 now (testAnnotations now) ⟨50, 180⟩ 1 = 110 / 180 ∧
        calcAttestationScore32 now (testAnnotations now) ⟨50, 50⟩ 1 = 40 / 50 := by
  intro h
  have h0 := (h 0).1
  have hv : calcAttestationScore32 0 (testAnnotations 0) ⟨50, 0⟩ 1 = 5452595 / 8388608 := by
    decide!
  rw [hv] at h0
  exact absurd h0 (by norm_num)

end documents

/-! ## The confidence in the machine formats -/

namespace documents

open policies

theorem sum32_idem (l : List ℚ) : F32 (sum32 l) = sum32 l := by
  unfold sum32
  induction l using List.reverseRecOn with
  | nil => simp [F32_zero]
  | append_singleton l x _ => simp [List.foldl_append, F32_idem]

/-- The variable `totalWeight` after the loop over the generic annotations, in `float32`. -/
theorem foldl_genericStep32_total (policy : DcfPolicy) (l : List Annotation)
    (st : ℚ × ℚ × Int) :
    (l.foldl (genericStep32 policy) st).1 =
      (l.map fun a => F32 ((policy.FetchWeight a.Kind).Value : ℚ)).foldl
        (fun s x => F32 (s + x)) st.1 := by
  induction l generalizing st with
  | nil => simp
  | cons a rest ih =>
    rw [List.foldl_cons, ih]
    cases hs : a.IsSatisfied <;> simp [genericStep32, hs]

/-- The variable `passedWeight` after the loop over the generic annotations, in `float32`. -/
theorem foldl_genericStep32_passedWeight (policy : DcfPolicy) (l : List Annotation)
    (st : ℚ × ℚ × Int) :
    (l.foldl (genericStep32 policy) st).2.1 =
      ((l.filter fun a => a.IsSatisfied).map
        fun a => F32 ((policy.FetchWeight a.Kind).Value : ℚ)).foldl
        (fun s x => F32 (s + x)) st.2.1 := by
  induction l generalizing st with
  | nil => simp
  | cons a rest ih =>
    rw [List.foldl_cons, ih]
    cases hs : a.IsSatisfied <;> simp [genericStep32, hs]

/-- Under a policy whose weights all lie in [1,10], every kind is weighed in [1,10]. -/
theorem FetchWeight_value_range (P : DcfPolicy) (k : String)
    (h : ∀ w ∈ P.Weights, 1 ≤ w.Value ∧ w.Value ≤ 10) :
    1 ≤ (P.FetchWeight k).Value ∧ (P.FetchWeight k).Value ≤ 10 := by
  unfold DcfPolicy.FetchWeight
  by_cases hv : (fetchLoop k { AnnotationKey := "", Value := 0 } P.Weights).Value = 0
  · simp [hv]
  · simp only [hv, if_false]
    rcases fetchLoop_eq_or_mem k { AnnotationKey := "", Value := 0 } P.Weights with h0 | hmem
    · rw [h0] at hv; exact absurd rfl hv
    · exact h _ hmem

/-- Whole numbers from 0 to 10, fewer than 1,600,000 of them, add up in `float32` without
any rounding. -/
theorem sum32_small_ints (l : List Int) (hl : ∀ v ∈ l, 0 ≤ v ∧ v ≤ 10)
    (hn : l.length ≤ 1600000) :
    sum32 (l.map fun (v : Int) => F32 (v : ℚ)) = ((l.sum : Int) : ℚ) ∧
      0 ≤ l.sum ∧ l.sum ≤ 10 * l.length := by
  induction l using List.reverseRecOn with
  | nil => simp [sum32]
  | append_singleton l x ih =>
    have hl' : ∀ v ∈ l, 0 ≤ v ∧ v ≤ 10 := fun v hv => hl v (by simp [hv])
    have hx := hl x (by simp)
    have hlen : l.length + 1 ≤ 1600000 := by simpa using hn
    obtain ⟨hs, h0, h1⟩ := ih hl' (by omega)
    have hxr : F32 (x : ℚ) = x := F32_intCast x (by rw [abs_lt]; constructor <;> omega)
    have hsum : sum32 ((l ++ [x]).map fun (v : Int) => F32 (v : ℚ)) =
        F32 (sum32 (l.map fun (v : Int) => F32 (v : ℚ)) + F32 (x : ℚ)) := by
      simp [sum32, List.foldl_append]
    refine ⟨?_, ?_, ?_⟩
    · rw [hsum, hs, hxr]
      have : ((l.sum : Int) : ℚ) + (x : ℚ) = ((l.sum + x : Int) : ℚ) := by push_cast; ring
      rw [this, F32_intCast _ (by rw [abs_lt]; constructor <;> omega)]
      simp
    · simp; omega
    · simp; omega

/-- C11, as the code has it: for every policy and every annotation list with no annotation
of the attestation kind, when the total weight is not zero, the confidence of `NewScore` is
the rounding to two decimals, done in `float64`, of the `float32` quotient of the sum of
the weights of the satisfied annotations by the sum of the weights of all annotations plus
the weight of the attestation kind, the sums taken in `float32` in the order of the list.
When the weights of the policy all lie in [1,10] and there are at most 1,600,000
annotations, the two sums are the exact sums of the weights. -/
theorem NewScore32_confidence_without_attestation (now : Int) (key : ULID) (dataRef : String)
    (annotations : List Annotation) (policy : DcfPolicy)
    (h : ∀ a ∈ annotations, a.Kind ≠ AnnotationAttestation) :
    (F32 (sum32 (annotations.map fun a => F32 ((policy.FetchWeight a.Kind).Value : ℚ)) +
          F32 ((policy.FetchWeight AnnotationAttestation).Value : ℚ)) ≠ 0 →
        (NewScore32 now key dataRef annotations policy).Confidence =
          F64 (Round (F64 (F32
            (sum32 ((annotations.filter fun a => a.IsSatisfied).map
                fun a => F32 ((policy.FetchWeight a.Kind).Value : ℚ)) /
              F32 (sum32 (annotations.map fun a => F32 ((policy.FetchWeight a.Kind).Value : ℚ)) +
                F32 ((policy.FetchWeight AnnotationAttestation).Value : ℚ))) * 100)) / 100)) ∧
      ((∀ w ∈ policy.Weights, 1 ≤ w.Value ∧ w.Value ≤ 10) → annotations.length ≤ 1600000 →
        (NewScore32 now key dataRef annotations policy).Confidence =
          F64 (Round (F64 (F32
            ((((annotations.filter fun a => a.IsSatisfied).map
                fun a => (policy.FetchWeight a.Kind).Value).sum : ℚ) /
              (((annotations.map fun a => (policy.FetchWeight a.Kind).Value).sum +
                (policy.FetchWeight AnnotationAttestation).Value : Int) : ℚ)) * 100)) / 100)) := by
  have hatt : (annotations.filter fun a => decide (a.Kind = AnnotationAttestation)) = [] := by
    rw [List.filter_eq_nil_iff]
    intro a ha
    simpa using h a ha
  have hgen : (annotations.filter fun a => !decide (a.Kind = AnnotationAttestation))
      = annotations := by
    rw [List.filter_eq_self]
    intro a ha
    simpa using h a ha
  have hcalc : calcAttestationScore32 now [] policy.AttestationOptions
      (policy.FetchWeight AnnotationAttestation).Value = 0 :=
    calcAttestationScore32_of_filter_nil _ _ _ _ (by simp [filterAnnotations64])
  have hmain : (NewScore32 now key dataRef annotations policy).Confidence =
      F64 (Round (F64 (F32
        (sum32 ((annotations.filter fun a => a.IsSatisfied).map
            fun a => F32 ((policy.FetchWeight a.Kind).Value : ℚ)) /
          F32 (sum32 (annotations.map fun a => F32 ((policy.FetchWeight a.Kind).Value : ℚ)) +
            F32 ((policy.FetchWeight AnnotationAttestation).Value : ℚ))) * 100)) / 100) := by
    simp only [NewScore32, hatt, hgen, hcalc, foldl_genericStep32_passedWeight,
      foldl_genericStep32_total, add_zero]
    rw [show ∀ l : List ℚ, List.foldl (fun s x => F32 (s + x)) 0 l = sum32 l from fun _ => rfl,
      show ∀ l : List ℚ, List.foldl (fun s x => F32 (s + x)) 0 l = sum32 l from fun _ => rfl,
      sum32_idem]
  refine ⟨fun _ => hmain, ?_⟩
  intro hw hn
  have hrange : ∀ (l : List Annotation),
      ∀ v ∈ l.map (fun a => (policy.FetchWeight a.Kind).Value), 0 ≤ v ∧ v ≤ 10 := by
    intro l v hv
    obtain ⟨a, _, rfl⟩ := List.mem_map.mp hv
    have := FetchWeight_value_range policy a.Kind hw
    omega
  have hsat := sum32_small_ints
    ((annotations.filter fun a => a.IsSatisfied).map fun a => (policy.FetchWeight a.Kind).Value)
    (hrange _) (by
      rw [List.length_map]
      exact (List.length_filter_le _ _).trans hn)
  have hall := sum32_small_ints
    (annotations.map fun a => (policy.FetchWeight a.Kind).Value)
    (hrange _) (by rw [List.length_map]; exact hn)
  have hatw := FetchWeight_value_range policy AnnotationAttestation hw
  rw [List.map_map] at hsat hall
  have hsat' : sum32 ((annotations.filter fun a => a.IsSatisfied).map
      fun a => F32 ((policy.FetchWeight a.Kind).Value : ℚ)) =
      (((annotations.filter fun a => a.IsSatisfied).map
        fun a => (policy.FetchWeight a.Kind).Value).sum : ℚ) := by
    simpa [Function.comp] using hsat.1
  have hall' : sum32 (annotations.map fun a => F32 ((policy.FetchWeight a.Kind).Value : ℚ)) =
      ((annotations.map fun a => (policy.FetchWeight a.Kind).Value).sum : ℚ) := by
    simpa [Function.comp] using hall.1
  rw [hmain, hsat', hall',
    F32_intCast (policy.FetchWeight AnnotationAttestation).Value
      (by rw [abs_lt]; constructor <;> omega)]
  have hlen : ((annotations.map fun a => (policy.FetchWeight a.Kind).Value).length : Int)
      ≤ 1600000 := by
    rw [List.length_map]
    exact_mod_cast hn
  have hcast : (((annotations.map fun a => (policy.FetchWeight a.Kind).Value).sum : Int) : ℚ) +
      ((policy.FetchWeight AnnotationAttestation).Value : ℚ) =
      (((annotations.map fun a => (policy.FetchWeight a.Kind).Value).sum +
        (policy.FetchWeight AnnotationAttestation).Value : Int) : ℚ) := by
    push_cast; ring
  rw [hcast, F32_intCast _ (by
    rw [abs_lt]
    have := hall.2.1
    have := hall.2.2
    constructor <;> omega)]

/-- C11 at the policy weighing `tpm` 9 and `tls` 10 and four annotations, `tpm` satisfied
and three `tls` not: the quotient of 9 by 40 is the `float32` 7549747/33554432, just under
0.225, and the confidence is the `float64` nearest to 0.22. -/
theorem NewScore32_confidence_without_attestation_witness :
    (NewScore32 0 0 "data"
        [genericOf "tpm" true, genericOf "tls" false, genericOf "tls" false,
          genericOf "tls" false] nineTenP).Confidence = F64 (22 / 100) := by
  rw [(NewScore32_confidence_without_attestation 0 0 "data" _ _ (by decide)).1 (by decide!)]
  decide!

/-- C11 as stated fails: at the policy weighing `tpm` 9 and `tls` 10 and four annotations,
`tpm` satisfied and three `tls` not, the weights give 9 over 40, whose rounding to two
decimals is 0.23, and the confidence returned is the `float64` nearest to 0.22. -/
theorem NewScore32_confidence_not_exact_quotient :
    ¬ ∀ (now : Int) (key : ULID) (dataRef : String) (annotations : List Annotation)
        (policy : DcfPolicy), (∀ a ∈ annotations, a.Kind ≠ AnnotationAttestation) →
      (NewScore32 now key dataRef annotations policy).Confidence =
        Round (((annotations.filter fun a => a.IsSatisfied).map
              fun a => ((policy.FetchWeight a.Kind).Value : ℚ)).sum /
            ((annotations.map fun a => ((policy.FetchWeight a.Kind).Value : ℚ)).sum +
              ((policy.FetchWeight AnnotationAttestation).Value : ℚ)) * 100) / 100 := by
  intro h
  have h0 := h 0 0 "data"
    [genericOf "tpm" true, genericOf "tls" false, genericOf "tls" false, genericOf "tls" false]
    nineTenP (by decide)
  have hv : (NewScore32 0 0 "data"
      [genericOf "tpm" true, genericOf "tls" false, genericOf "tls" false,
        genericOf "tls" false] nineTenP).Confidence
      = 7926335344172073 / 36028797018963968 := by decide!
  rw [hv] at h0
  revert h0
  decide!

end documents

/-! ## The unbounded case in the machine formats -/

namespace documents

open policies

theorem Sub_eq_sub {t u : Int} (h0 : 0 ≤ t - u) (h1 : t - u ≤ maxDuration) :
    Sub t u = t - u := by
  unfold Sub minDuration
  unfold maxDuration at h1
  simp only [maxDuration]
  split_ifs <;> omega

/-- The score of two attestations made 100 and 40 seconds before the clock reading 0, under
cadence 50, no range and weight 1: one unit in the last place above 1. -/
theorem calcAttestationScore32_at_100s_40s :
    calcAttestationScore32 0
      [attestationSecondsAgo "a" 0 100, attestationSecondsAgo "b" 0 40] ⟨50, 0⟩ 1
      = 8388609 / 8388608 := by
  decide!

end documents

/-! ## The closed formula in the machine formats -/

namespace documents

open policies

/-- The walk in the machine formats past a recorded previous annotation, over annotations in
strictly ascending order, none of them `Annotation{}`, all before `now` and within the
range of `time.Duration` of it: with the interval from the last one to `now` added, the
covered minutes are those of the closed formula. -/
theorem foldl_walkStep32_formula (opts : AttestationOptions) (e now : Int) :
    ∀ (l : List Annotation) (prev : Annotation) (acc : ℚ),
      prev ≠ zeroAnnotation → e ≤ prev.Timestamp →
      (prev :: l).Pairwise (fun a b => a.Timestamp < b.Timestamp) →
      (∀ a ∈ l, a ≠ zeroAnnotation) →
      (∀ a ∈ prev :: l, a.Timestamp < now ∧ now - a.Timestamp ≤ maxDuration) →
      (l.foldl (walkStep32 opts e) (acc, prev)).2 ≠ zeroAnnotation ∧
        F32 ((l.foldl (walkStep32 opts e) (acc, prev)).1 +
            F32 (min (Minutes64 (Sub now (l.foldl (walkStep32 opts e) (acc, prev)).2.Timestamp))
              (F64 (opts.CadenceThresholdMins : ℚ)))) =
          coveredSpec32 now opts.CadenceThresholdMins acc
            ((prev :: l).map fun a => a.Timestamp) := by
  intro l
  induction l with
  | nil =>
    intro prev acc hprev _ _ _ hspan
    obtain ⟨h1, h2⟩ := hspan prev (List.mem_cons_self _ _)
    refine ⟨hprev, ?_⟩
    simp only [List.foldl_nil, List.map_cons, List.map_nil, coveredSpec32]
    rw [Sub_eq_sub (by omega) h2]
  | cons a rest ih =>
    intro prev acc hprev he hp hnz hspan
    rw [List.pairwise_cons] at hp
    have hpa : prev.Timestamp < a.Timestamp := hp.1 a (List.mem_cons_self _ _)
    obtain ⟨hp1, hp2⟩ := hspan prev (List.mem_cons_self _ _)
    obtain ⟨ha1, _⟩ := hspan a (List.mem_cons_of_mem _ (List.mem_cons_self _ _))
    have hnb : ¬ a.Timestamp < e := by omega
    have hsub : Sub a.Timestamp prev.Timestamp = a.Timestamp - prev.Timestamp :=
      Sub_eq_sub (by omega) (by omega)
    have hstep : walkStep32 opts e (acc, prev) a =
        (F32 (acc + F32 (min (Minutes64 (a.Timestamp - prev.Timestamp))
          (F64 (opts.CadenceThresholdMins : ℚ)))), a) := by
      simp [walkStep32, hnb, hprev, hsub]
    rw [List.foldl_cons, hstep]
    obtain ⟨hz, heq⟩ := ih a _ (hnz a (List.mem_cons_self _ _)) (by omega) hp.2
      (fun b hb => hnz b (List.mem_cons_of_mem _ hb))
      (fun b hb => hspan b (List.mem_cons_of_mem _ hb))
    refine ⟨hz, ?_⟩
    rw [heq]
    simp [coveredSpec32]

/-- C17, as the code has it: in the unbounded case, for every non-empty annotation list
whose annotations, put in order, have strictly ascending timestamps, all before `now` and
within the range of `time.Duration` of it, and none of which is the zero value
`Annotation{}`, `calcAttestationScore` is the closed formula taken in the machine formats:
the capped intervals added in `float32` in ascending order, the sum divided in `float32` by
the minutes from the earliest timestamp to `now`, the quotient multiplied in `float32` by
the weight. -/
theorem calcAttestationScore32_unbounded_formula (now : Int) (attest sorted : List Annotation)
    (cadence weight : Int) (hperm : attest.Perm sorted) (hne : attest ≠ [])
    (hnz : ∀ a ∈ attest, a ≠ zeroAnnotation)
    (hs : sorted.Pairwise fun a b => a.Timestamp < b.Timestamp)
    (hnow : ∀ a ∈ attest, a.Timestamp < now)
    (hspan : ∀ a ∈ attest, now - a.Timestamp ≤ maxDuration) :
    calcAttestationScore32 now attest ⟨cadence, 0⟩ weight =
      F32 (F32 (coveredSpec32 now cadence 0 (sorted.map fun a => a.Timestamp) /
          F32 (Minutes64 (now - (sorted.headD zeroAnnotation).Timestamp))) *
        F32 (weight : ℚ)) := by
  obtain ⟨hperm', hsorted⟩ :=
    sortSlice_unbounded_perm_sorted attest ⟨cadence, 0⟩ rfl attest
  have hsort : sortSlice (sortLess attest ⟨cadence, 0⟩) attest = sorted :=
    eq_of_perm_of_ascending _ _ (hperm'.trans hperm) hsorted hs
  have hf : filterAnnotations64 now attest ⟨cadence, 0⟩ = attest := by
    simp [filterAnnotations64]
  rw [calcAttestationScore32_eq_of now attest ⟨cadence, 0⟩ weight attest sorted _ hf hne hsort
    rfl]
  cases sorted with
  | nil => exact absurd hperm.eq_nil hne
  | cons h t =>
    have hmem : ∀ a ∈ h :: t, a ∈ attest := fun a ha => hperm.symm.subset ha
    have hhz : h ≠ zeroAnnotation := hnz h (hmem h (List.mem_cons_self _ _))
    have hfirst : walkStep32 ⟨cadence, 0⟩ h.Timestamp (0, zeroAnnotation) h = (0, h) := by
      simp [walkStep32]
    have hh1 := hnow h (hmem h (List.mem_cons_self _ _))
    have hh2 := hspan h (hmem h (List.mem_cons_self _ _))
    simp only [if_true, List.headD_cons, List.foldl_cons, hfirst]
    obtain ⟨hz, heq⟩ := foldl_walkStep32_formula ⟨cadence, 0⟩ h.Timestamp now t h 0 hhz
      (le_refl _) hs (fun a ha => hnz a (hmem a (List.mem_cons_of_mem _ ha)))
      (fun a ha => ⟨hnow a (hmem a ha), hspan a (hmem a ha)⟩)
    rw [if_pos hz, heq, Sub_eq_sub (by omega) hh2]

/-- C17 at the annotations of the test, the clock at 0: the input holds them latest first,
and the formula is taken over them earliest first. -/
theorem calcAttestationScore32_unbounded_formula_witness :
    calcAttestationScore32 0 (testAnnotations 0) ⟨50, 0⟩ 1 =
      F32 (F32 (coveredSpec32 0 50 0 ((testAnnotations 0).reverse.map fun a => a.Timestamp) /
          F32 (Minutes64 (0 - ((testAnnotations 0).reverse.headD zeroAnnotation).Timestamp))) *
        F32 ((1 : Int) : ℚ)) :=
  calcAttestationScore32_unbounded_formula 0 (testAnnotations 0) (testAnnotations 0).reverse
    50 1 (List.reverse_perm _).symm (by decide) (by decide) (by decide) (by decide) (by decide)

/-- C17 as stated fails: for two attestations made 100 and 40 seconds before the clock
reading 0, cadence 50 and weight 1, the formula in exact arithmetic is (1 + 2/3) / (5/3) = 1
and the `float32` returned is 8388609/8388608. -/
theorem calcAttestationScore32_not_exact_formula :
    ¬ ∀ (now : Int) (attest sorted : List Annotation) (cadence weight : Int),
      attest.Perm sorted → attest ≠ [] →
      (sorted.Pairwise fun a b => a.Timestamp < b.Timestamp) →
      (∀ a ∈ attest, a.Timestamp < now) →
      calcAttestationScore32 now attest ⟨cadence, 0⟩ weight =
        (weight : ℚ) * coveredSpec now cadence (sorted.map fun a => a.Timestamp) /
          Minutes (now - (sorted.headD zeroAnnotation).Timestamp) := by
  intro h
  have h0 := h 0 [attestationSecondsAgo "a" 0 100, attestationSecondsAgo "b" 0 40]
    [attestationSecondsAgo "a" 0 100, attestationSecondsAgo "b" 0 40] 50 1
    (List.Perm.refl _) (by decide) (by decide) (by decide)
  rw [calcAttestationScore32_at_100s_40s] at h0
  revert h0
  decide!

end documents
